import Mathlib

/-!
Verification development for the HospitalPriceApp normalization/extraction
engine (`scripts/surveyor/bulk_ingest.py`).

The Python source is shallowly embedded: pandas CSV cells are modelled by
`CellV` (a string or the pandas `NaN` missing-value marker), a CSV row by an
association list of column name to cell, JSON values by the inductive `JVal`,
and the SQLAlchemy store (`items` / `prices` tables) by a list of items each
carrying its list of price offers, with the autoincrement surrogate `item_id`
modelled as the item's creation index within one run.  Monetary amounts are
modelled as rationals.

Model conventions, stated once here:
* Python `float(...)` is modelled by `pyFloatQ` on plain decimal literals
  (optional sign, digits, optional fractional part); exponents, underscores,
  `inf`/`nan` literals are modelled as parse failures, which no ingested
  claim exercises.
* `str(...)` of a JSON container is modelled by a fixed placeholder string
  (`pyStr`), and a string cell containing serialized JSON is modelled as a
  plain string; these only influence free-text note contents.
* `pd.isna` applied to a Python list of two or more elements raises
  `ValueError` in pandas; this is modelled by `Except` errors (`isnaJ`), and
  an exception escaping `ingest_json` aborts the run exactly as in the source.
-/

set_option maxHeartbeats 1000000

namespace HPA

/-- Association-list lookup, modelling Python `dict` access and membership
for rows, records and the in-run item cache (first binding wins, and the
code only ever inserts a key once). -/
def afind {α : Type} {β : Type} [DecidableEq α] : List (α × β) → α → Option β
  | [], _ => none
  | (k, v) :: rest, key => if k = key then some v else afind rest key

/-- Prefix test on character lists. -/
def isPrefixL : List Char → List Char → Bool
  | [], _ => true
  | _ :: _, [] => false
  | p :: ps, c :: cs => p = c && isPrefixL ps cs

/-- Contiguous-substring test on character lists. -/
def isInfixL (pat : List Char) : List Char → Bool
  | [] => isPrefixL pat []
  | c :: cs => isPrefixL pat (c :: cs) || isInfixL pat cs

/-- Python `in` on strings: substring containment. -/
def containsSub (pat s : String) : Bool :=
  isInfixL pat.data s.data

/-- Python whitespace for `str.strip()` (ASCII model). -/
def pyWs (c : Char) : Bool :=
  c = ' ' ∨ c = '\t' ∨ c = '\n' ∨ c = '\r' ∨ c = '\x0b' ∨ c = '\x0c'

/-- Python `str.strip()`. -/
def pyStrip (s : String) : String :=
  ⟨((s.data.dropWhile pyWs).reverse.dropWhile pyWs).reverse⟩

/-- Python `str.split(sep)` for a single-character separator, as a list
recursion (so that it evaluates by kernel reduction). -/
def splitCharGo (sep : Char) : List Char → List Char → List String
  | [], acc => [⟨acc.reverse⟩]
  | c :: cs, acc =>
    if c = sep then ⟨acc.reverse⟩ :: splitCharGo sep cs [] else splitCharGo sep cs (c :: acc)

/-- Python `str.split(sep)` for a single-character separator. -/
def splitChar (sep : Char) (s : String) : List String :=
  splitCharGo sep s.data []

/-- Python `sep in s` for a single character. -/
def hasChar (sep : Char) (s : String) : Bool :=
  s.data.any (fun c => c = sep)

/-- Python `sep.join(parts)` for the pipe separator
(used to model `rsplit('|', 1)[0]`). -/
def joinPipe : List String → String
  | [] => ""
  | [x] => x
  | x :: rest => x ++ "|" ++ joinPipe rest

/-- Python slicing `s[:n]`. -/
def pyTake (n : Nat) (s : String) : String := ⟨s.data.take n⟩

/-- Python `str.replace(old, new)` for single characters. -/
def replaceChar (old new : Char) (s : String) : String :=
  ⟨s.data.map (fun c => if c = old then new else c)⟩

/-- Python `str.title()`: alphabetic characters are upper-cased at the start
of an alphabetic run and lower-cased inside one. -/
def pyTitle (s : String) : String :=
  let f := s.data.foldl
    (fun (acc : List Char × Bool) c =>
      if c.isAlpha then
        (acc.1 ++ [if acc.2 then c.toLower else c.toUpper], true)
      else (acc.1 ++ [c], false))
    ([], false)
  ⟨f.1⟩

/-- Python `str.lower()` (ASCII model). -/
def pyLower (s : String) : String := ⟨s.data.map Char.toLower⟩

/-- Python `str.upper()` (ASCII model). -/
def pyUpper (s : String) : String := ⟨s.data.map Char.toUpper⟩

/-- The ten ASCII digit characters, modelling Python `str.isdigit` membership. -/
def pyDigit (c : Char) : Bool :=
  c = '0' ∨ c = '1' ∨ c = '2' ∨ c = '3' ∨ c = '4' ∨
  c = '5' ∨ c = '6' ∨ c = '7' ∨ c = '8' ∨ c = '9'

/-- Python `str.isdigit`: non-empty and all digits. -/
def pyIsDigitStr (s : String) : Bool := s ≠ "" && s.data.all pyDigit

/-- Removal of `$` and `,` characters, modelling
`price_str_clean.replace('$', '').replace(',', '')` (both patterns are single
characters, so the two replacements equal a character filter). -/
def cleanChars (s : String) : String :=
  ⟨s.data.filter (fun c => c ≠ '$' && c ≠ ',')⟩

/-- Numeric value of a run of digit characters. -/
def digitsToNat (l : List Char) : Nat :=
  l.foldl (fun a c => a * 10 + (c.toNat - 48)) 0

/-- A Python float value, modelled as a decimal `man / 10 ^ exp` kept in the
normalized form produced by `normPF` (no trailing zero digits in the
fraction), so that structural equality coincides with numeric equality —
matching Python's value semantics for `==` and `set` membership on floats.
Rationals are avoided here because `Rat` arithmetic does not reduce inside
the kernel; the bridge `PyFloat.toRat` recovers the rational value for
specification statements. -/
structure PyFloat where
  man : Int
  exp : Nat
deriving DecidableEq

/-- Strip factors of ten from the mantissa into the exponent. -/
def normPF (m : Int) : Nat → PyFloat
  | 0 => ⟨m, 0⟩
  | e + 1 => if m % 10 = 0 then normPF (m / 10) e else ⟨m, e + 1⟩

/-- The rational value of a `PyFloat`. -/
def PyFloat.toRat (a : PyFloat) : ℚ := (a.man : ℚ) / (10 : ℚ) ^ a.exp

/-- Comparison `a <= b` of float values (cross-multiplied, kernel-reducible). -/
def pfLe (a b : PyFloat) : Bool :=
  decide (a.man * (10 : Int) ^ b.exp ≤ b.man * (10 : Int) ^ a.exp)

/-- Digits with at most one decimal point, at least one digit in total,
under an already-consumed sign. -/
def pyFloatCore (rest : List Char) (sgn : Int) : Option PyFloat :=
  match rest.dropWhile pyDigit with
  | [] =>
    if rest.takeWhile pyDigit = [] then none
    else some (normPF (sgn * digitsToNat (rest.takeWhile pyDigit)) 0)
  | c2 :: fr =>
    if c2 = '.' then
      if fr.all pyDigit && !(rest.takeWhile pyDigit = [] && fr = []) then
        some (normPF (sgn * digitsToNat (rest.takeWhile pyDigit ++ fr)) fr.length)
      else none
    else none

/-- Model of Python `float(...)` on a list of characters: optional sign,
then digits with at most one decimal point. -/
def pyFloatL (cs : List Char) : Option PyFloat :=
  match cs with
  | '-' :: rest => pyFloatCore rest (-1)
  | '+' :: rest => pyFloatCore rest 1
  | rest => pyFloatCore rest 1

/-- Model of Python `float(...)` on a string. -/
def pyFloatQ (s : String) : Option PyFloat := pyFloatL s.data

/-- A pandas cell as read with `dtype=str`: either the `NaN` missing marker
or a string. -/
inductive CellV where
  | nan
  | str (s : String)
deriving DecidableEq

/-- Python `str(...)` of a cell (`str(nan) = "nan"`). -/
def cellStr : CellV → String
  | .nan => "nan"
  | .str s => s

/-- A CSV row: column name to cell. -/
abbrev Row : Type := List (String × CellV)

/-- A loaded CSV `DataFrame`: the column list and the rows. -/
structure DF where
  cols : List String
  rows : List Row

/-- Skip rules (`skip_rules`), with the module-level defaults of
`bulk_ingest.py` applied exactly where `dict.get` applies them. -/
structure SkipRules where
  placeholder_threshold : PyFloat := ⟨99999999, 0⟩
  formula_patterns : List String :=
    ["formula", "algorithm", "see contract", "varies", "call for pricing"]

/-- Code-extraction descriptor section (`code_extraction`), defaults as in
`extract_code`. -/
structure CodeExt where
  columns : List String := []
  type_columns : List String := []
  priority : List String := ["CPT", "HCPCS", "MS-DRG", "APR-DRG", "NDC", "CDM", "Local"]
  auto_normalize : Bool := true

/-- Setting-extraction descriptor section (`setting_extraction`), defaults as
in `extract_setting`. -/
structure SettingExt where
  primary : String := "setting"
  fallback : String := "billing_class"
  dflt : String := "UNKNOWN"

/-- Price-extraction descriptor section (`price_extraction`).  `price_column`
is kept optional because the CSV path defaults it to
`standard_charge|negotiated_dollar` while the JSON path defaults it to
`negotiated_dollar`; the other keys have one consistent default across all
call sites. -/
structure PriceExt where
  payer_style : String := "column"
  payer_column : String := "payer_name"
  plan_column : String := "plan_name"
  price_column : Option String := none
  sibling_columns : List String := []
  gross_column : String := "standard_charge|gross"
  cash_column : String := "standard_charge|discounted_cash"

/-- A mapping descriptor (one hospital's config JSON), with the use-site
defaults of `bulk_ingest.py` baked into the fields that have a single
consistent default. -/
structure Config where
  format_type : String := "tall"
  code_extraction : CodeExt := {}
  code_column : String := "code|1"
  code_type_column : Option String := none
  description_column : String := "description"
  setting_extraction : SettingExt := {}
  price_extraction : PriceExt := {}
  skip_rules : SkipRules := {}

/-! ## Value parser (`parse_price`) -/

/-- Core of `parse_price` on the trimmed, non-blank string `t`: formula
patterns first, then currency cleanup and numeric parse with the placeholder
threshold, degrading to a note on parse failure. -/
def parsePriceCore (t : String) (sk : SkipRules) : Option PyFloat × Option String :=
  if sk.formula_patterns.any (fun p => containsSub (pyLower p) (pyLower t)) then
    (none, some t)
  else
    match pyFloatQ (cleanChars t) with
    | some v => if pfLe sk.placeholder_threshold v then (none, none) else (some v, none)
    | none => (none, if t = "" then none else some t)

/-- `parse_price` on a CSV cell (`none` models a missing column, for which
`row.get` returns Python `None` and `pd.isna(None)` is true). -/
def parse_price (cell : Option CellV) (sk : SkipRules) : Option PyFloat × Option String :=
  match cell with
  | none => (none, none)
  | some .nan => (none, none)
  | some (.str s) => if pyStrip s = "" then (none, none) else parsePriceCore (pyStrip s) sk

/-! ## Code resolver (`extract_code`, CSV path) -/

/-- Priority score of a scheme: the `priority_map` of `extract_code`, built
with dict semantics (`UNKNOWN` is forced to 999 after enumeration, later
duplicate entries override earlier ones) and defaulting to 999 for schemes
not in the priority list. -/
def prioLookup (priority : List String) (t : String) : Nat :=
  if t = "UNKNOWN" then 999
  else
    match (priority.enum.filter (fun p => p.2 = t)).getLast? with
    | some p => p.1
    | none => 999

/-- The candidate `(code, scheme)` that column number `i` named `col`
contributes in the scan loop of `extract_code` (CSV branch), `none` when the
loop `continue`s: the column must be present, not `NaN`, not blank, not the
literal string `nan`; the scheme comes from the parallel type column when
configured, defaults to `UNKNOWN`, and a `CPT`/`HCPCS` scheme on a code whose
length is not 5 is downgraded to `Local`. -/
def candAt (row : Row) (ce : CodeExt) (i : Nat) (col : String) : Option (String × String) :=
  match afind row col with
  | none => none
  | some .nan => none
  | some (.str s) =>
    if pyStrip s = "" then none
    else
      let code := pyStrip s
      if code = "nan" then none
      else
        let t0 : String :=
          if ce.type_columns ≠ [] ∧ i < ce.type_columns.length then
            match ce.type_columns.get? i with
            | some tc =>
              if tc ≠ "" then
                match afind row tc with
                | some cell => pyStrip (cellStr cell)
                | none => ""
              else ""
            | none => ""
          else ""
        let ctype := if t0 = "" then "UNKNOWN" else t0
        let ctype :=
          if (ctype = "CPT" ∨ ctype = "HCPCS") ∧ code.length ≠ 5 then "Local" else ctype
        some (code, ctype)

/-- One fold step of the best-candidate scan of `extract_code`: a candidate
replaces the best seen so far only when its priority is strictly better. -/
def scanStep (row : Row) (ce : CodeExt) (best : String × String × Nat)
    (p : Nat × String) : String × String × Nat :=
  match candAt row ce p.1 p.2 with
  | none => best
  | some c =>
    if prioLookup ce.priority c.2 < best.2.2 then (c.1, c.2, prioLookup ce.priority c.2)
    else best

/-- The best-candidate scan loop of `extract_code`: fold the candidates in
column order, starting from `("UNKNOWN", "UNKNOWN", 999)`. -/
def codeScan (row : Row) (ce : CodeExt) : String × String × Nat :=
  ce.columns.enum.foldl (scanStep row ce) ("UNKNOWN", "UNKNOWN", 999)

/-- First character is alphabetic and the rest are digits
(`best_code[0].isalpha() and best_code[1:].isdigit()`). -/
def headAlphaTailDigits (s : String) : Bool :=
  match s.data with
  | c :: rest => c.isAlpha && pyIsDigitStr ⟨rest⟩
  | [] => false

/-- The legacy single-column fallback of `extract_code` (CSV branch), used
when `code_extraction.columns` is empty.  A `NaN` code cell is truthy in
Python, so it yields the literal string `"nan"`; a raw (un-stringified) type
cell is modelled by its string form. -/
def extractCodeFallback (row : Row) (cfg : Config) : String × String :=
  let code : String :=
    match afind row cfg.code_column with
    | some .nan => "nan"
    | some (.str s) => if s ≠ "" then pyStrip s else "UNKNOWN"
    | none => "UNKNOWN"
  let ctype : String :=
    match cfg.code_type_column with
    | some tc =>
      if tc ≠ "" then
        match afind row tc with
        | some cell => cellStr cell
        | none => "UNKNOWN"
      else "UNKNOWN"
    | none => "UNKNOWN"
  (code, ctype)

/-- The auto-normalization tail of `extract_code`: when enabled and the
winning code has exactly 5 characters, an all-digit code is forced to `CPT`
and a letter followed by four digits to `HCPCS`. -/
def autoNormalize (auto : Bool) (b : String × String × Nat) : String × String :=
  if auto && b.1.length = 5 then
    if pyIsDigitStr b.1 then (b.1, "CPT")
    else if headAlphaTailDigits b.1 then (b.1, "HCPCS")
    else (b.1, b.2.1)
  else (b.1, b.2.1)

/-- `extract_code` (CSV branch): scan, then auto-normalization. -/
def extract_code (row : Row) (cfg : Config) : String × String :=
  if cfg.code_extraction.columns = [] then extractCodeFallback row cfg
  else autoNormalize cfg.code_extraction.auto_normalize (codeScan row cfg.code_extraction)

/-! ## Setting resolver (`extract_setting`, CSV branch) -/

/-- One lookup attempt of `extract_setting` (CSV branch): the column must be
configured, present, not `NaN` and not blank. -/
def settingTry (row : Row) (col : String) : Option String :=
  if col ≠ "" then
    match afind row col with
    | some (.str s) => if pyStrip s ≠ "" then some (pyStrip s) else none
    | _ => none
  else none

/-- `extract_setting` (CSV branch): primary column, then fallback column,
then the default. -/
def extract_setting (row : Row) (cfg : Config) : String :=
  let se := cfg.setting_extraction
  match settingTry row se.primary with
  | some v => v
  | none =>
    match settingTry row se.fallback with
    | some v => v
    | none => se.dflt

/-- Description extraction as done inline by the ingest loops:
`row.get(desc_col, 'No Description')` with `NaN` replaced and the result
stripped. -/
def getDesc (row : Row) (dcol : String) : String :=
  match afind row dcol with
  | none => "No Description"
  | some .nan => "No Description"
  | some (.str s) => pyStrip s

/-! ## Store model and ingestion state

The relational store (`items` / `prices`) is modelled as a list of items,
each carrying its offers.  Within a run an item's `item_id` is its index in
the run's creation-ordered item list (the autoincrement surrogate key carries
no information beyond identity).
-/

/-- One row of the `items` table. -/
structure ItemRec where
  code : String
  code_type : String
  description : String
  hospital_id : String
  setting : String
deriving DecidableEq

/-- One row of the `prices` table (minus the item reference, which is given
by the position of the offer list the record sits in). -/
structure OfferRec where
  payer : String
  plan : Option String
  amount : Option PyFloat
  notes : Option String
deriving DecidableEq

/-- The dedup key `(item_id, payer, plan, amount, notes)` of the in-run
`price_dedupe` set. -/
abbrev DKey : Type := Nat × String × Option String × Option PyFloat × Option String

/-- In-run ingestion state: items in creation order (each with its offers),
the `item_cache`, the `price_dedupe` set (as a list), the two counters, and
the (mutable, auto-detected) payer style local of `ingest_csv_tall`. -/
structure RunState where
  items : List (ItemRec × List OfferRec)
  cache : List ((String × String × String) × Nat)
  dedupe : List DKey
  itemsCreated : Nat
  pricesCreated : Nat
  payerStyle : String

/-- Initial run state. -/
def initState (ps : String) : RunState :=
  ⟨[], [], [], 0, 0, ps⟩

/-- Append an offer to the item at index `i`. -/
def addOfferAt (items : List (ItemRec × List OfferRec)) (i : Nat) (o : OfferRec) :
    List (ItemRec × List OfferRec) :=
  match items, i with
  | [], _ => []
  | x :: xs, 0 => (x.1, x.2 ++ [o]) :: xs
  | x :: xs, n + 1 => x :: addOfferAt xs n o

/-- The dedup key of an offer at item index `i`. -/
def keyOf (i : Nat) (o : OfferRec) : DKey := (i, o.payer, o.plan, o.amount, o.notes)

/-- The dedup keys of all offers in the store, item index offset by `n`. -/
def offerKeysFrom (n : Nat) : List (ItemRec × List OfferRec) → List DKey
  | [] => []
  | p :: ps => p.2.map (keyOf n) ++ offerKeysFrom (n + 1) ps

/-- The dedup keys of all offers in the store. -/
def offerKeys (items : List (ItemRec × List OfferRec)) : List DKey :=
  offerKeysFrom 0 items

/-- The `item_cache` get-or-create step shared by `ingest_csv_tall` and
`ingest_json`: look up `(code, description, setting)`, otherwise create the
item (its id is the next index) and count it. -/
def getOrCreateItem (st : RunState) (code ctype desc hid setting : String) : Nat × RunState :=
  match afind st.cache (code, desc, setting) with
  | some i => (i, st)
  | none =>
    (st.items.length,
     { st with
        items := st.items ++ [(⟨code, ctype, desc, hid, setting⟩, [])],
        cache := ((code, desc, setting), st.items.length) :: st.cache,
        itemsCreated := st.itemsCreated + 1 })

/-- Deduplicated offer insertion shared by `ingest_csv_tall` and
`ingest_json`: skip when the `(item_id, payer, plan, amount, notes)` key is
already in `price_dedupe`, otherwise add the `Price` row, record the key and
count it. -/
def addDedup (st : RunState) (i : Nat) (payer : String) (plan : Option String)
    (a : Option PyFloat) (n : Option String) : RunState :=
  if ((i, payer, plan, a, n) : DKey) ∈ st.dedupe then st
  else
    { st with
        items := addOfferAt st.items i ⟨payer, plan, a, n⟩,
        dedupe := ((i, payer, plan, a, n) : DKey) :: st.dedupe,
        pricesCreated := st.pricesCreated + 1 }

/-- Plain (un-deduplicated) offer insertion, as done by `ingest_csv_wide`,
which maintains no `price_dedupe` set. -/
def addPlain (st : RunState) (i : Nat) (payer : String) (plan : Option String)
    (a : Option PyFloat) (n : Option String) : RunState :=
  { st with
      items := addOfferAt st.items i ⟨payer, plan, a, n⟩,
      pricesCreated := st.pricesCreated + 1 }

/-! ## Tall CSV ingestion (`ingest_csv_tall`) -/

/-- The header-style auto-detection of `ingest_csv_tall`: some column name
contains `negotiated_dollar` or `estimated_amount`, contains a pipe, and
splits into at least two segments. -/
def autoDetectHeader (cols : List String) : Bool :=
  cols.any (fun c =>
    (containsSub "negotiated_dollar" c || containsSub "estimated_amount" c) &&
    hasChar '|' c && (splitChar '|' c).length ≥ 2)

/-- `price_col.rsplit('|', 1)[0]`. -/
def rsplitHead (s : String) : String :=
  joinPipe (splitChar '|' s).dropLast

/-- The sibling-column scan of the column-style branch: the first configured
sibling whose derived column is present, non-`NaN` and non-blank yields the
note `"<sibling>: <value>"`. -/
def findSiblingNote (row : Row) (price_col : String) : List String → Option String
  | [] => none
  | sib :: rest =>
    let sc := if hasChar '|' price_col then rsplitHead price_col ++ "|" ++ sib else sib
    match afind row sc with
    | some cell =>
      match cell with
      | .nan => findSiblingNote row price_col rest
      | .str s =>
        if pyStrip s ≠ "" then some (sib ++ ": " ++ pyStrip s)
        else findSiblingNote row price_col rest
    | none => findSiblingNote row price_col rest

/-- Column-style price extraction for one tall row: payer and plan come from
configured columns; a `(none, none)` price parse falls back to the sibling
columns; an offer is added only when an amount or a note resulted. -/
def columnStylePrices (pe : PriceExt) (sk : SkipRules) (row : Row) (item_id : Nat)
    (st : RunState) : RunState :=
  let price_col := pe.price_column.getD "standard_charge|negotiated_dollar"
  let payerv : Option CellV := if pe.payer_column ≠ "" then afind row pe.payer_column else none
  match payerv with
  | some (.str s) =>
    if s ≠ "" then
      let payer := pyStrip s
      let planv : Option CellV := if pe.plan_column ≠ "" then afind row pe.plan_column else none
      let plan : Option String :=
        match planv with
        | some (.str p) => if p ≠ "" then some (pyStrip p) else none
        | _ => none
      let pr := parse_price (afind row price_col) sk
      let note :=
        if pr.1 = none ∧ pr.2 = none then findSiblingNote row price_col pe.sibling_columns
        else pr.2
      if pr.1 ≠ none ∨ note ≠ none then addDedup st item_id payer plan pr.1 note else st
    else st
  | _ => st

/-- Header-style scan step for one column of a tall row: a column whose name
contains `negotiated_dollar` or `estimated_amount` contributes an offer whose
payer (and optional plan) are parsed from the pipe-split column name. -/
def headerScanStep (sk : SkipRules) (row : Row) (item_id : Nat)
    (st : RunState) (col : String) : RunState :=
  if containsSub "negotiated_dollar" col || containsSub "estimated_amount" col then
    let pr := parse_price (afind row col) sk
    if pr.1 ≠ none ∨ pr.2 ≠ none then
      let parts := splitChar '|' col
      let payer := (parts.get? 1).getD "Unknown"
      let plan : Option String :=
        match parts.get? 2 with
        | some p => if p ≠ "negotiated_dollar" ∧ p ≠ "estimated_amount" then some p else none
        | none => none
      addDedup st item_id payer plan pr.1 pr.2
    else st
  else st

/-- One sentinel-payer charge column (`gross_column` / `cash_column`): when
configured and present in the row, parse it and add an offer under the
sentinel payer if an amount or note resulted. -/
def sentinelCharge (payerName col : String) (sk : SkipRules) (row : Row) (item_id : Nat)
    (st : RunState) : RunState :=
  if col ≠ "" ∧ (afind row col).isSome then
    let pr := parse_price (afind row col) sk
    if pr.1 ≠ none ∨ pr.2 ≠ none then addDedup st item_id payerName none pr.1 pr.2 else st
  else st

/-- The unconditional gross / discounted-cash extraction at the end of each
tall row. -/
def grossCashPrices (pe : PriceExt) (sk : SkipRules) (row : Row) (item_id : Nat)
    (st : RunState) : RunState :=
  sentinelCharge "DISCOUNTED_CASH" pe.cash_column sk row item_id
    (sentinelCharge "GROSS" pe.gross_column sk row item_id st)

/-- The price phase of one tall row, after the row's item exists: apply the
header-style auto-detection to the (state-carried) payer style, extract
prices by the effective style, and always attempt the gross and cash
columns. -/
def tallPricePhase (cols : List String) (pe : PriceExt) (sk : SkipRules) (row : Row)
    (item_id : Nat) (st : RunState) : RunState :=
  let st2 :=
    if st.payerStyle = "column" ∧ autoDetectHeader cols then
      { st with payerStyle := "header" }
    else st
  let st3 :=
    if st2.payerStyle = "column" then columnStylePrices pe sk row item_id st2
    else cols.foldl (headerScanStep sk row item_id) st2
  grossCashPrices pe sk row item_id st3

/-- One row of `ingest_csv_tall`: resolve the code (skipping `UNKNOWN`
rows), the description and the setting; get or create the item; run the
price phase. -/
def processTallRow (cols : List String) (cfg : Config) (hid : String)
    (st : RunState) (row : Row) : RunState :=
  let c := extract_code row cfg
  if c.1 = "" ∨ c.1 = "UNKNOWN" then st
  else
    let r1 := getOrCreateItem st c.1 c.2 (getDesc row cfg.description_column) hid
      (extract_setting row cfg)
    tallPricePhase cols cfg.price_extraction cfg.skip_rules row r1.1 r1.2

/-- `ingest_csv_tall` over a whole dataframe. -/
def runTall (df : DF) (cfg : Config) (hid : String) : RunState :=
  df.rows.foldl (processTallRow df.cols cfg hid)
    (initState cfg.price_extraction.payer_style)

/-! ## Wide CSV ingestion (`ingest_csv_wide`) -/

/-- One matching column of a wide row: any column whose lower-cased name
contains `standard_charge` or `price` is parsed; the payer and plan come from
the pipe-split column name, with `gross` / `discounted_cash` / `min` / `max`
upper-cased into sentinel payers.  No dedup set is consulted. -/
def wideScanStep (sk : SkipRules) (row : Row) (item_id : Nat)
    (st : RunState) (col : String) : RunState :=
  if containsSub "standard_charge" (pyLower col) || containsSub "price" (pyLower col) then
    let pr := parse_price (afind row col) sk
    if pr.1 ≠ none ∨ pr.2 ≠ none then
      let parts := splitChar '|' col
      let pp : String × Option String :=
        match parts.get? 1 with
        | none => ("Unknown", none)
        | some p1 =>
          if pyLower p1 = "gross" ∨ pyLower p1 = "discounted_cash" ∨
              pyLower p1 = "min" ∨ pyLower p1 = "max" then
            (pyUpper p1, none)
          else
            (p1,
             match parts.get? 2 with
             | some p2 =>
               if p2 ≠ "negotiated_dollar" ∧ p2 ≠ "estimated_amount" then some p2 else none
             | none => none)
      addPlain st item_id pp.1 pp.2 pr.1 pr.2
    else st
  else st

/-- One row of `ingest_csv_wide`: skip unresolved codes, always create a
fresh item (no item cache), and scan every column for prices. -/
def processWideRow (cols : List String) (cfg : Config) (hid : String)
    (st : RunState) (row : Row) : RunState :=
  let c := extract_code row cfg
  if c.1 = "" ∨ c.1 = "UNKNOWN" then st
  else
    let desc := getDesc row cfg.description_column
    let setting := extract_setting row cfg
    let item_id := st.items.length
    let st1 :=
      { st with
          items := st.items ++ [(⟨c.1, c.2, desc, hid, setting⟩, [])],
          itemsCreated := st.itemsCreated + 1 }
    cols.foldl (wideScanStep cfg.skip_rules row item_id) st1

/-- `ingest_csv_wide` over a whole dataframe. -/
def runWide (df : DF) (cfg : Config) (hid : String) : RunState :=
  df.rows.foldl (processWideRow df.cols cfg hid)
    (initState cfg.price_extraction.payer_style)

/-! ## JSON ingestion (`ingest_json`)

JSON values are modelled by `JVal`.  A JSON `null` inside an object is
indistinguishable from a missing key for Python `dict.get` (both give
`None`), which `jGetPy` reflects; raw key membership (`'k' in record`) uses
`afind` directly.  Exceptions raised while a record is being processed
(pandas `pd.isna` on a multi-element list raises `ValueError`) abort the
whole ingestion run with the partially built state, exactly as an exception
propagating out of the `for` loop of `ingest_json` would; they are modelled
by a `Bool` success flag threaded through the run.
-/

/-- A JSON value. -/
inductive JVal where
  | nullv
  | b (v : Bool)
  | num (v : PyFloat)
  | s (v : String)
  | arr (l : List JVal)
  | obj (l : List (String × JVal))

/-- A JSON object body. -/
abbrev JObj : Type := List (String × JVal)

/-- Python truthiness of a JSON-derived value. -/
def jTruthy : JVal → Bool
  | .nullv => false
  | .b v => v
  | .num v => !(v.man = 0)
  | .s v => v ≠ ""
  | .arr [] => false
  | .arr (_ :: _) => true
  | .obj [] => false
  | .obj (_ :: _) => true

/-- Python `str(...)` of a JSON-derived value.  Containers are modelled by
fixed placeholder strings and numbers by a decimal rendering; these reprs
only ever end up inside free-text notes. -/
def pyStr : JVal → String
  | .nullv => "None"
  | .b true => "True"
  | .b false => "False"
  | .num v => if v.exp = 0 then toString v.man else toString v.man ++ "e-" ++ toString v.exp
  | .s v => v
  | .arr _ => "[list]"
  | .obj _ => "(dict)"

/-- Python `dict.get(k)` on a JSON object: a present `null` equals `None`. -/
def jGetPy (o : JObj) (k : String) : Option JVal :=
  match afind o k with
  | some .nullv => none
  | x => x

/-- Python `a or b` over optional JSON values (`None` and falsy values fall
through to the second operand). -/
def pyOr (a b : Option JVal) : Option JVal :=
  match a with
  | some v => if jTruthy v then some v else b
  | none => b

/-- `pd.isna` on a JSON-derived value: `None` is missing; a list of two or
more elements raises `ValueError` (modelled as `Except.error`); a
single-element list takes its element's truthiness; everything else is not
missing. -/
def isnaJ : JVal → Except Unit Bool
  | .nullv => .ok true
  | .arr l =>
    match l with
    | [] => .ok false
    | [x] => .ok (match x with | .nullv => true | _ => false)
    | _ => .error ()
  | _ => .ok false

/-- `parse_json_value` of `bulk_ingest.py` on a JSON-derived value: `NaN`
handling first (which can raise), containers returned as-is, blank or
`"nan"` scalars dropped, other scalars returned unchanged (a string that is
itself serialized JSON is modelled as a plain string). -/
def parse_json_valueJ (v : JVal) : Except Unit (Option JVal) := do
  let na ← isnaJ v
  if na then return none
  match v with
  | .obj _ => return some v
  | .arr _ => return some v
  | _ =>
    let t := pyStrip (pyStr v)
    if t = "" ∨ t = "nan" then return none
    return some v

/-- `extract_code_from_value`: a dict (or the first element of a list) is
searched for code / type keys with Python `or` chaining; scalars are
stringified. -/
def extract_code_from_valueJ (v : JVal) : Except Unit (Option String × Option String) := do
  let parsed? ← parse_json_valueJ v
  match parsed? with
  | none => return (none, none)
  | some parsed =>
    let fromObj : JObj → Option String × Option String := fun o =>
      let code := pyOr (jGetPy o "code") (pyOr (jGetPy o "code_value") (jGetPy o "procedure_code"))
      let ctype := pyOr (jGetPy o "code_type") (pyOr (jGetPy o "type") (jGetPy o "codeType"))
      match code with
      | some cv =>
        if jTruthy cv then
          (some (pyStrip (pyStr cv)),
           match ctype with
           | some tv => if jTruthy tv then some (pyStrip (pyStr tv)) else none
           | none => none)
        else (none, none)
      | none => (none, none)
    match parsed with
    | .obj o =>
      match fromObj o with
      | (some c, t) => return (some c, t)
      | (none, _) => return (none, none)
    | .arr (first :: _) =>
      match first with
      | .obj o =>
        match fromObj o with
        | (some c, t) => return (some c, t)
        | (none, _) => return (none, none)
      | _ => return (none, none)
    | .arr [] => return (none, none)
    | .s sv => return (some (pyStrip sv), none)
    | .num q => return (some (pyStrip (pyStr (.num q))), none)
    | .b bv => return (some (pyStr (.b bv)), none)
    | .nullv => return (none, none)

/-- The candidate `(code, scheme)` contributed by column number `i` named
`col` in the scan loop of `extract_code` with `is_json=True`: presence is
raw key membership, `pd.isna` can raise, nested values go through
`extract_code_from_value`, and the type falls back to the parallel type key
(stringified raw, so a `null` type shows as `"None"`). -/
def candAtJ (kvs : JObj) (ce : CodeExt) (i : Nat) (col : String) :
    Except Unit (Option (String × String)) := do
  match afind kvs col with
  | none => return none
  | some code_val =>
    let na ← isnaJ code_val
    if na then return none
    else if (match code_val with | .s sv => pyStrip sv == "" | _ => false) then return none
    else
      let ct ← extract_code_from_valueJ code_val
      let code? : Option String :=
        match ct.1 with
        | some c => if c = "" then (if jTruthy code_val then some (pyStrip (pyStr code_val)) else none) else some c
        | none => if jTruthy code_val then some (pyStrip (pyStr code_val)) else none
      match code? with
      | none => return none
      | some code =>
        if code = "" ∨ code = "nan" then return none
        else
          let t1 : Option String :=
            match ct.2 with
            | some t => if t = "" then none else some t
            | none => none
          let t2 : Option String :=
            match t1 with
            | some t => some t
            | none =>
              if ce.type_columns ≠ [] ∧ i < ce.type_columns.length then
                match ce.type_columns.get? i with
                | some tc =>
                  if tc ≠ "" then
                    match afind kvs tc with
                    | some cell => some (pyStrip (pyStr cell))
                    | none => none
                  else none
                | none => none
              else none
          let ctype :=
            match t2 with
            | some t => if t = "" then "UNKNOWN" else t
            | none => "UNKNOWN"
          let ctype :=
            if (ctype = "CPT" ∨ ctype = "HCPCS") ∧ code.length ≠ 5 then "Local" else ctype
          return some (code, ctype)

/-- The best-candidate scan loop of `extract_code` with `is_json=True`. -/
def jCodeScan (kvs : JObj) (ce : CodeExt) :
    List (Nat × String) → (String × String × Nat) → Except Unit (String × String × Nat)
  | [], best => .ok best
  | p :: rest, best => do
    let c? ← candAtJ kvs ce p.1 p.2
    match c? with
    | none => jCodeScan kvs ce rest best
    | some c =>
      let pr := prioLookup ce.priority c.2
      if pr < best.2.2 then jCodeScan kvs ce rest (c.1, c.2, pr)
      else jCodeScan kvs ce rest best

/-- The legacy single-column fallback of `extract_code` with `is_json=True`:
pipe-composite column names are shortened to their first segment when that
key exists; nested values go through `extract_code_from_value`. -/
def extractCodeFallbackJ (kvs : JObj) (cfg : Config) : Except Unit (String × String) := do
  let code_col := cfg.code_column
  let actual_col :=
    if hasChar '|' code_col then
      let head := (splitChar '|' code_col).headI
      if (afind kvs head).isSome then head else code_col
    else code_col
  let code_val : Option JVal :=
    match afind kvs actual_col with
    | some v => some v
    | none => none
  match code_val with
  | some v =>
    if !(v matches .nullv) then do
      let ct ← extract_code_from_valueJ v
      match ct.1 with
      | some c =>
        if c ≠ "" then
          return (c, match ct.2 with | some t => if t ≠ "" then t else "UNKNOWN" | none => "UNKNOWN")
        else
          return (fallbackRaw v, fallbackType kvs cfg)
      | none => return (fallbackRaw v, fallbackType kvs cfg)
    else
      return (fallbackRaw v, fallbackType kvs cfg)
  | none => return ("UNKNOWN", fallbackType kvs cfg)
where
  /-- `code = code_val if code_val else 'UNKNOWN'`, stringified. -/
  fallbackRaw (v : JVal) : String :=
    if jTruthy v then pyStrip (pyStr v) else "UNKNOWN"
  /-- The raw type lookup of the fallback branch (stringified model). -/
  fallbackType (kvs : JObj) (cfg : Config) : String :=
    match cfg.code_type_column with
    | some tc =>
      if tc ≠ "" then
        match afind kvs tc with
        | some cell => pyStr cell
        | none => "UNKNOWN"
      else "UNKNOWN"
    | none => "UNKNOWN"

/-- `extract_code` with `is_json=True`: fallback path or scan loop, then the
same auto-normalization as the CSV path. -/
def extract_codeJ (kvs : JObj) (cfg : Config) : Except Unit (String × String) := do
  let ce := cfg.code_extraction
  if ce.columns = [] then extractCodeFallbackJ kvs cfg
  else
    let b ← jCodeScan kvs ce ce.columns.enum ("UNKNOWN", "UNKNOWN", 999)
    return autoNormalize ce.auto_normalize b

/-- One lookup attempt inside a charge object for the setting
(`charge_obj.get(primary)`, no `nan` filtering). -/
def jSettingTryObj (o : JObj) (col : String) : Option String :=
  if col ≠ "" then
    match jGetPy o col with
    | some v => if pyStrip (pyStr v) ≠ "" then some (pyStrip (pyStr v)) else none
    | none => none
  else none

/-- `extract_setting` with `is_json=True`: top-level primary first, then the
primary / fallback keys one level inside `standard_charges` (whose
`parse_json_value` can raise), then the default. -/
def extract_settingJ (kvs : JObj) (cfg : Config) : Except Unit String := do
  let se := cfg.setting_extraction
  let top : Option String :=
    if se.primary ≠ "" then
      match jGetPy kvs se.primary with
      | some v =>
        if pyStrip (pyStr v) ≠ "" ∧ pyStr v ≠ "nan" then some (pyStrip (pyStr v)) else none
      | none => none
    else none
  match top with
  | some v => return v
  | none =>
    if (afind kvs "standard_charges").isSome then do
      let sc := (afind kvs "standard_charges").getD .nullv
      let scp ← parse_json_valueJ sc
      match scp with
      | some (.arr (first :: _)) =>
        match first with
        | .obj o =>
          match jSettingTryObj o se.primary with
          | some v => return v
          | none =>
            match jSettingTryObj o se.fallback with
            | some v => return v
            | none => return se.dflt
        | _ => return se.dflt
      | some (.obj o) =>
        match jSettingTryObj o se.primary with
        | some v => return v
        | none =>
          match jSettingTryObj o se.fallback with
          | some v => return v
          | none => return se.dflt
      | _ => return se.dflt
    else return se.dflt

/-- Description extraction of `ingest_json`:
`record.get(desc_col, 'No Description')`, with `None` and blank strings
replaced before stringification. -/
def getDescJ (kvs : JObj) (dcol : String) : String :=
  match afind kvs dcol with
  | none => "No Description"
  | some v =>
    if (v matches .nullv) || (match v with | .s sv => pyStrip sv == "" | _ => false) then
      "No Description"
    else pyStrip (pyStr v)

/-- `parse_price` applied to a raw JSON value (the `pd.isna` test can raise
on lists).  Numeric values round-trip through `str`/`float` to themselves;
containers stringify to unparseable placeholder notes. -/
def parse_priceJ (v : JVal) (sk : SkipRules) : Except Unit (Option PyFloat × Option String) := do
  let na ← isnaJ v
  if na then return (none, none)
  match v with
  | .s sv => return parse_price (some (.str sv)) sk
  | .num q => return (if pfLe sk.placeholder_threshold q then (none, none) else (some q, none))
  | .b bv => return (none, some (pyStr (.b bv)))
  | .nullv => return (none, none)
  | .arr l => return (none, some (pyStrip (pyStr (.arr l))))
  | .obj o => return (none, some (pyStrip (pyStr (.obj o))))

/-- The gross-charge step of one charge object. -/
def jGrossStep (co : JObj) (sk : SkipRules) (iid : Nat) (st : RunState) :
    RunState × Bool :=
  match afind co "gross_charge" with
  | some gv =>
    if !(gv matches .nullv) then
      match parse_priceJ gv sk with
      | .error _ => (st, false)
      | .ok pr =>
        if pr.1 ≠ none ∨ pr.2 ≠ none then (addDedup st iid "GROSS" none pr.1 pr.2, true)
        else (st, true)
    else (st, true)
  | none => (st, true)

/-- The discounted-cash step of one charge object. -/
def jCashStep (co : JObj) (sk : SkipRules) (iid : Nat) (st : RunState) :
    RunState × Bool :=
  match afind co "discounted_cash" with
  | some cv =>
    if !(cv matches .nullv) then
      match parse_priceJ cv sk with
      | .error _ => (st, false)
      | .ok pr =>
        if pr.1 ≠ none ∨ pr.2 ≠ none then
          (addDedup st iid "DISCOUNTED_CASH" none pr.1 pr.2, true)
        else (st, true)
    else (st, true)
  | none => (st, true)

/-- One entry of a `payers_information` array: payer / plan / amount keys
with `or`-chaining, optional `additional_payer_notes` appended to (or
standing in for) the parsed note. -/
def jPayerObjStep (sk : SkipRules) (iid : Nat) (acc : RunState × Bool) (pobj : JVal) :
    RunState × Bool :=
  match acc with
  | (st, false) => (st, false)
  | (st, true) =>
    match pobj with
    | .obj po =>
      let payer_name := pyOr (jGetPy po "payer_name") (jGetPy po "payer")
      let plan_name := pyOr (jGetPy po "plan_name") (jGetPy po "plan")
      let estimated := pyOr (jGetPy po "estimated_amount") (jGetPy po "negotiated_dollar")
      match payer_name, estimated with
      | some pv, some ev =>
        if jTruthy pv then
          let payerS := pyStrip (pyStr pv)
          let planS : Option String :=
            match plan_name with
            | some pl => if jTruthy pl then some (pyStrip (pyStr pl)) else none
            | none => none
          match parse_priceJ ev sk with
          | .error _ => (st, false)
          | .ok pr =>
            let an := jGetPy po "additional_payer_notes"
            let note : Option String :=
              match an with
              | some av =>
                if jTruthy av then
                  match pr.2 with
                  | some pn =>
                    if pn ≠ "" then some (pn ++ "; " ++ pyStrip (pyStr av))
                    else some (pyStrip (pyStr av))
                  | none => some (pyStrip (pyStr av))
                else pr.2
              | none => pr.2
            if pr.1 ≠ none ∨ note ≠ none then
              (addDedup st iid payerS planS pr.1 note, true)
            else (st, true)
        else (st, true)
      | _, _ => (st, true)
    | _ => (st, true)

/-- The `payers_information` step of one charge object. -/
def jPayersStep (co : JObj) (sk : SkipRules) (iid : Nat) (st : RunState) :
    RunState × Bool :=
  match afind co "payers_information" with
  | some (.arr pl) => pl.foldl (jPayerObjStep sk iid) (st, true)
  | _ => (st, true)

/-- One key of the header-style fallback scan over a charge object:
`negotiated` / `estimated` keys holding numeric values (Python `bool` is an
`int`) become offers whose payer is the titlecased, truncated key name. -/
def jHeaderKeyStep (sk : SkipRules) (iid : Nat) (acc : RunState × Bool)
    (kv : String × JVal) : RunState × Bool :=
  match acc with
  | (st0, false) => (st0, false)
  | (st0, true) =>
    if (containsSub "negotiated" (pyLower kv.1) || containsSub "estimated" (pyLower kv.1)) &&
        (match kv.2 with | .num _ => true | .b _ => true | _ => false) then
      let payer := pyTake 50 (pyTitle (replaceChar '_' ' ' kv.1))
      match parse_priceJ kv.2 sk with
      | .error _ => (st0, false)
      | .ok pr =>
        if pr.1 ≠ none ∨ pr.2 ≠ none then (addDedup st0 iid payer none pr.1 pr.2, true)
        else (st0, true)
    else (st0, true)

/-- The payer-style fallback section that runs for each charge object when
`standard_charges` is a list: column style reads payer / plan / price keys
from the charge object or the record; header style scans the charge object's
keys for numeric `negotiated` / `estimated` entries, titlecasing the key into
a payer name. -/
def jFallbackStep (pe : PriceExt) (sk : SkipRules) (record : JObj) (co : JObj)
    (iid : Nat) (st : RunState) : RunState × Bool :=
  if pe.payer_style = "column" then
    let price_col := pe.price_column.getD "negotiated_dollar"
    let payer := pyOr (jGetPy co pe.payer_column) (jGetPy record pe.payer_column)
    let plan := pyOr (jGetPy co pe.plan_column) (jGetPy record pe.plan_column)
    let praw := pyOr (jGetPy co price_col) (jGetPy record price_col)
    match payer, praw with
    | some pv, some ev =>
      if jTruthy pv then
        let payerS := pyStrip (pyStr pv)
        let planS : Option String :=
          match plan with
          | some pl => if jTruthy pl then some (pyStrip (pyStr pl)) else none
          | none => none
        match parse_priceJ ev sk with
        | .error _ => (st, false)
        | .ok pr =>
          if pr.1 ≠ none ∨ pr.2 ≠ none then (addDedup st iid payerS planS pr.1 pr.2, true)
          else (st, true)
      else (st, true)
    | _, _ => (st, true)
  else
    co.foldl (jHeaderKeyStep sk iid) (st, true)

/-- One charge object when `standard_charges` is a list: gross, cash,
payers-information, then the payer-style fallback, aborting on a raised
exception. -/
def chargeStepArr (pe : PriceExt) (sk : SkipRules) (record : JObj) (iid : Nat)
    (acc : RunState × Bool) (cov : JVal) : RunState × Bool :=
  match acc with
  | (st, false) => (st, false)
  | (st, true) =>
    match cov with
    | .obj co =>
      let r1 := jGrossStep co sk iid st
      match r1 with
      | (st1, false) => (st1, false)
      | (st1, true) =>
        let r2 := jCashStep co sk iid st1
        match r2 with
        | (st2, false) => (st2, false)
        | (st2, true) =>
          let r3 := jPayersStep co sk iid st2
          match r3 with
          | (st3, false) => (st3, false)
          | (st3, true) => jFallbackStep pe sk record co iid st3
    | _ => (st, true)

/-- The price section when `standard_charges` is a single object: gross,
cash and payers-information only (no fallback section). -/
def chargeStepDict (sk : SkipRules) (co : JObj) (iid : Nat) (st : RunState) :
    RunState × Bool :=
  let r1 := jGrossStep co sk iid st
  match r1 with
  | (st1, false) => (st1, false)
  | (st1, true) =>
    let r2 := jCashStep co sk iid st1
    match r2 with
    | (st2, false) => (st2, false)
    | (st2, true) => jPayersStep co sk iid st2

/-- One record of `ingest_json`: non-dict records are skipped; code
resolution (which may raise) gates item creation; prices come from the
nested `standard_charges` structure. -/
def processJsonRecord (cfg : Config) (hid : String) (st : RunState) (record : JVal) :
    RunState × Bool :=
  match record with
  | .obj kvs =>
    (match extract_codeJ kvs cfg with
     | .error _ => (st, false)
     | .ok c =>
       if c.1 = "" ∨ c.1 = "UNKNOWN" then (st, true)
       else
         let desc := getDescJ kvs cfg.description_column
         match extract_settingJ kvs cfg with
         | .error _ => (st, false)
         | .ok setting =>
           let r := getOrCreateItem st c.1 c.2 desc hid setting
           let iid := r.1
           let st1 := r.2
           if (afind kvs "standard_charges").isSome then
             let sc := (afind kvs "standard_charges").getD .nullv
             match parse_json_valueJ sc with
             | .error _ => (st1, false)
             | .ok scp =>
               match scp with
               | some (.arr []) => (st1, true)
               | some (.arr (c0 :: cs)) =>
                 (c0 :: cs).foldl (chargeStepArr cfg.price_extraction cfg.skip_rules kvs iid)
                   (st1, true)
               | some (.obj co) => chargeStepDict cfg.skip_rules co iid st1
               | _ => (st1, true)
           else (st1, true))
  | _ => (st, true)

/-- The record loop of `ingest_json`, aborting on the first raised
exception with the partially built state. -/
def runJsonRecords (cfg : Config) (hid : String) :
    RunState → List JVal → RunState × Bool
  | st, [] => (st, true)
  | st, r :: rs =>
    match processJsonRecord cfg hid st r with
    | (st1, true) => runJsonRecords cfg hid st1 rs
    | (st1, false) => (st1, false)

/-- The record list of a JSON file: a top-level array, or the first of the
well-known keys holding an array inside a top-level object. -/
def recordsOf (data : JVal) : Option (List JVal) :=
  match data with
  | .arr l => some l
  | .obj kvs =>
    match afind kvs "standard_charge_information" with
    | some (.arr l) => some l
    | _ =>
      match afind kvs "data" with
      | some (.arr l) => some l
      | _ =>
        match afind kvs "items" with
        | some (.arr l) => some l
        | _ =>
          match afind kvs "records" with
          | some (.arr l) => some l
          | _ => none
  | _ => none

/-- `ingest_json`: an empty or missing record list raises `ValueError`. -/
def runJson (data : JVal) (cfg : Config) (hid : String) : RunState × Bool :=
  match recordsOf data with
  | some [] => (initState cfg.price_extraction.payer_style, false)
  | some l => runJsonRecords cfg hid (initState cfg.price_extraction.payer_style) l
  | none => (initState cfg.price_extraction.payer_style, false)

/-! ## Hospital-level ingestion (`ingest_hospital` / `delete_hospital_data`) -/

/-- The shared store: all hospitals' items, each with its offers.  The
surrogate `id` columns carry no information beyond row identity and are not
modelled. -/
abbrev Store : Type := List (ItemRec × List OfferRec)

/-- `delete_hospital_data`: remove every item of the hospital together with
its prices (the price delete is the `item_id IN (...)` cascade). -/
def deleteHospitalData (s : Store) (hid : String) : Store :=
  s.filter (fun p => p.1.hospital_id ≠ hid)

/-- A successfully located and loaded data file. -/
inductive FileData where
  | csv (df : DF)
  | json (data : JVal)

/-- Format dispatch of `ingest_hospital`: `wide` CSVs go to
`ingest_csv_wide`, all other CSVs to `ingest_csv_tall`, JSON files to
`ingest_json`.  The `Bool` is the success flag (CSV ingestion raises no
modelled exception). -/
def ingestFile (fd : FileData) (cfg : Config) (hid : String) : RunState × Bool :=
  match fd with
  | .csv df =>
    if cfg.format_type = "wide" then (runWide df cfg hid, true)
    else (runTall df cfg hid, true)
  | .json data => runJson data cfg hid

/-- `ingest_hospital` against the shared store.  The `file` argument is the
combined outcome of `find_data_file` and the file load (`pd.read_csv` /
`json.load`): `none` when no data file exists (the function returns before
touching the store), `some (.error e)` when the file is found but fails to
load or parse — by which point the hospital's previous data has already been
deleted and committed.  The result is the new store and
`(success, itemsCreated, pricesCreated)`. -/
def ingestHospital (store : Store) (file : Option (Except String FileData))
    (cfg : Config) (hid : String) : Store × Bool × Nat × Nat :=
  match file with
  | none => (store, false, 0, 0)
  | some load =>
    let store1 := deleteHospitalData store hid
    match load with
    | .error _ => (store1, false, 0, 0)
    | .ok fd =>
      match ingestFile fd cfg hid with
      | (st, true) => (store1 ++ st.items, true, st.itemsCreated, st.pricesCreated)
      | (st, false) => (store1 ++ st.items, false, 0, 0)

/-! ## Invariants

`StInv hid st` packages what every tall / JSON ingestion step preserves:
all items belong to the hospital being ingested, the item cache holds valid
item indices, the `price_dedupe` set holds exactly the dedup keys of the
offers created so far, and those keys are pairwise distinct.
-/

theorem afind_mem {α β : Type} [DecidableEq α] {l : List (α × β)} {k : α} {v : β}
    (h : afind l k = some v) : (k, v) ∈ l := by
  induction l with
  | nil => simp [afind] at h
  | cons x xs ih =>
    rw [afind] at h
    split at h
    · rename_i heq
      cases x
      simp_all
    · exact List.mem_cons_of_mem _ (ih h)

theorem addOfferAt_map_fst (items : List (ItemRec × List OfferRec)) (i : Nat) (o : OfferRec) :
    (addOfferAt items i o).map Prod.fst = items.map Prod.fst := by
  induction items generalizing i with
  | nil => cases i <;> rfl
  | cons x xs ih =>
    cases i with
    | zero => rfl
    | succ n => simpa [addOfferAt] using ih n

theorem addOfferAt_length (items : List (ItemRec × List OfferRec)) (i : Nat) (o : OfferRec) :
    (addOfferAt items i o).length = items.length := by
  have := addOfferAt_map_fst items i o
  have h1 := congrArg List.length this
  simpa using h1

theorem offerKeysFrom_append (n : Nat) (l₁ l₂ : List (ItemRec × List OfferRec)) :
    offerKeysFrom n (l₁ ++ l₂) = offerKeysFrom n l₁ ++ offerKeysFrom (n + l₁.length) l₂ := by
  induction l₁ generalizing n with
  | nil => simp [offerKeysFrom]
  | cons x xs ih =>
    simp only [List.cons_append, offerKeysFrom, List.append_assoc, List.length_cons,
      List.append_eq]
    rw [ih (n + 1)]
    have hn : n + 1 + xs.length = n + (xs.length + 1) := by omega
    rw [hn]

theorem offerKeysFrom_addOfferAt {items : List (ItemRec × List OfferRec)} {i : Nat}
    (o : OfferRec) (h : i < items.length) (n : Nat) :
    (offerKeysFrom n (addOfferAt items i o)).Perm (keyOf (n + i) o :: offerKeysFrom n items) := by
  induction items generalizing i n with
  | nil => simp at h
  | cons x xs ih =>
    cases i with
    | zero =>
      simp only [addOfferAt, offerKeysFrom, List.map_append, List.map_cons, List.map_nil,
        List.append_assoc, List.singleton_append, Nat.add_zero]
      exact List.perm_middle
    | succ m =>
      simp only [addOfferAt, offerKeysFrom]
      have hm : m < xs.length := by simpa using h
      refine (List.Perm.append_left _ (ih hm (n + 1))).trans ?_
      have hn : n + 1 + m = n + (m + 1) := by omega
      rw [hn]
      exact List.perm_middle

theorem offerKeys_append_newItem (items : List (ItemRec × List OfferRec)) (it : ItemRec) :
    offerKeys (items ++ [(it, [])]) = offerKeys items := by
  unfold offerKeys
  rw [offerKeysFrom_append]
  simp [offerKeysFrom]

/-- The combined per-run invariant for the deduplicating ingestion paths. -/
def StInv (hid : String) (st : RunState) : Prop :=
  (∀ p ∈ st.items, p.1.hospital_id = hid) ∧
  (∀ kv ∈ st.cache, kv.2 < st.items.length) ∧
  (∀ k : DKey, k ∈ offerKeys st.items ↔ k ∈ st.dedupe) ∧
  (offerKeys st.items).Nodup

theorem StInv_init (hid ps : String) : StInv hid (initState ps) := by
  refine ⟨?_, ?_, ?_, ?_⟩ <;> simp [initState, offerKeys, offerKeysFrom]

theorem StInv_addDedup {hid : String} {st : RunState} {iid : Nat}
    (hlt : iid < st.items.length) (h : StInv hid st)
    (payer : String) (plan : Option String) (a : Option PyFloat) (nt : Option String) :
    StInv hid (addDedup st iid payer plan a nt) ∧
      (addDedup st iid payer plan a nt).items.length = st.items.length := by
  obtain ⟨h1, h2, h3, h4⟩ := h
  unfold addDedup
  split
  · exact ⟨⟨h1, h2, h3, h4⟩, rfl⟩
  · rename_i hnot
    have hperm : (offerKeysFrom 0 (addOfferAt st.items iid ⟨payer, plan, a, nt⟩)).Perm
        (((iid, payer, plan, a, nt) : DKey) :: offerKeysFrom 0 st.items) := by
      have h0 := offerKeysFrom_addOfferAt (⟨payer, plan, a, nt⟩ : OfferRec) hlt 0
      simpa [keyOf] using h0
    have hlen : (addOfferAt st.items iid ⟨payer, plan, a, nt⟩).length = st.items.length :=
      addOfferAt_length _ _ _
    have hknotin : ((iid, payer, plan, a, nt) : DKey) ∉ offerKeys st.items := by
      intro hmem
      exact hnot ((h3 _).mp hmem)
    refine ⟨⟨?_, ?_, ?_, ?_⟩, hlen⟩
    · intro p hp
      have hfst : p.1 ∈ (addOfferAt st.items iid ⟨payer, plan, a, nt⟩).map Prod.fst :=
        List.mem_map_of_mem Prod.fst hp
      rw [addOfferAt_map_fst] at hfst
      obtain ⟨q, hq, hqe⟩ := List.mem_map.mp hfst
      rw [← hqe]
      exact h1 q hq
    · intro kv hkv
      show kv.2 < (addOfferAt st.items iid ⟨payer, plan, a, nt⟩).length
      rw [hlen]
      exact h2 kv hkv
    · intro k
      show k ∈ offerKeys (addOfferAt st.items iid ⟨payer, plan, a, nt⟩) ↔
        k ∈ ((iid, payer, plan, a, nt) : DKey) :: st.dedupe
      unfold offerKeys
      rw [hperm.mem_iff]
      simp only [List.mem_cons]
      exact or_congr Iff.rfl (h3 k)
    · show (offerKeys (addOfferAt st.items iid ⟨payer, plan, a, nt⟩)).Nodup
      unfold offerKeys
      refine hperm.symm.nodup ?_
      exact List.nodup_cons.mpr ⟨hknotin, h4⟩

theorem StInv_getOrCreate {hid : String} {st : RunState} (h : StInv hid st)
    (code ctype desc setting : String) :
    StInv hid (getOrCreateItem st code ctype desc hid setting).2 ∧
      (getOrCreateItem st code ctype desc hid setting).1 <
        (getOrCreateItem st code ctype desc hid setting).2.items.length ∧
      st.items.length ≤ (getOrCreateItem st code ctype desc hid setting).2.items.length := by
  obtain ⟨h1, h2, h3, h4⟩ := h
  unfold getOrCreateItem
  split
  · rename_i i hfind
    exact ⟨⟨h1, h2, h3, h4⟩, h2 _ (afind_mem hfind), le_refl _⟩
  · have hkeys : offerKeys (st.items ++ [(⟨code, ctype, desc, hid, setting⟩, [])]) =
        offerKeys st.items := offerKeys_append_newItem _ _
    refine ⟨⟨?_, ?_, ?_, ?_⟩, ?_, ?_⟩
    · intro p hp
      rcases List.mem_append.mp hp with hp | hp
      · exact h1 p hp
      · simp at hp
        rw [hp]
    · intro kv hkv
      simp only [List.length_append, List.length_singleton]
      rcases List.mem_cons.mp hkv with hkv | hkv
      · rw [hkv]
        simp
      · exact Nat.lt_succ_of_lt (h2 kv hkv)
    · intro k
      rw [hkeys]
      exact h3 k
    · rw [hkeys]
      exact h4
    · simp
    · simp

/-- Run-state facts preserved by every offer-adding step within one row:
the invariant plus a fixed item count, so that the row's `item_id` stays a
valid index. -/
def PInv (hid : String) (iid : Nat) (st : RunState) : Prop :=
  StInv hid st ∧ iid < st.items.length

theorem PInv_addDedup {hid : String} {iid : Nat} {st : RunState} (h : PInv hid iid st)
    (payer : String) (plan : Option String) (a : Option PyFloat) (nt : Option String) :
    PInv hid iid (addDedup st iid payer plan a nt) := by
  obtain ⟨hs, hlt⟩ := h
  obtain ⟨hs', hlen⟩ := StInv_addDedup hlt hs payer plan a nt
  exact ⟨hs', hlen ▸ hlt⟩

theorem foldl_pres {α σ : Type} (P : σ → Prop) (f : σ → α → σ)
    (hf : ∀ s a, P s → P (f s a)) : ∀ (l : List α) (s : σ), P s → P (l.foldl f s)
  | [], _, h => h
  | a :: l, s, h => foldl_pres P f hf l (f s a) (hf s a h)

theorem PInv_sentinelCharge (payerName col : String) (sk : SkipRules) (row : Row)
    {hid : String} {iid : Nat} {st : RunState} (h : PInv hid iid st) :
    PInv hid iid (sentinelCharge payerName col sk row iid st) := by
  simp only [sentinelCharge]
  repeat' split
  all_goals first | exact h | exact PInv_addDedup h _ _ _ _

theorem PInv_columnStyle (pe : PriceExt) (sk : SkipRules) (row : Row)
    {hid : String} {iid : Nat} {st : RunState} (h : PInv hid iid st) :
    PInv hid iid (columnStylePrices pe sk row iid st) := by
  simp only [columnStylePrices]
  repeat' split
  all_goals first | exact h | exact PInv_addDedup h _ _ _ _

theorem PInv_headerScanStep (sk : SkipRules) (row : Row) (col : String)
    {hid : String} {iid : Nat} {st : RunState} (h : PInv hid iid st) :
    PInv hid iid (headerScanStep sk row iid st col) := by
  simp only [headerScanStep]
  repeat' split
  all_goals first | exact h | exact PInv_addDedup h _ _ _ _

theorem PInv_grossCash (pe : PriceExt) (sk : SkipRules) (row : Row)
    {hid : String} {iid : Nat} {st : RunState} (h : PInv hid iid st) :
    PInv hid iid (grossCashPrices pe sk row iid st) :=
  PInv_sentinelCharge _ _ _ _ (PInv_sentinelCharge _ _ _ _ h)

theorem PInv_tallPricePhase (cols : List String) (pe : PriceExt) (sk : SkipRules) (row : Row)
    {hid : String} {iid : Nat} {st : RunState} (h : PInv hid iid st) :
    PInv hid iid (tallPricePhase cols pe sk row iid st) := by
  have h2 : PInv hid iid
      (if st.payerStyle = "column" ∧ autoDetectHeader cols then
        { st with payerStyle := "header" }
      else st) := by
    split
    · exact h
    · exact h
  simp only [tallPricePhase]
  refine PInv_grossCash _ _ _ ?_
  revert h2
  generalize (if st.payerStyle = "column" ∧ autoDetectHeader cols = true then
      { st with payerStyle := "header" }
    else st) = st2x
  intro h2
  split
  · exact PInv_columnStyle _ _ _ h2
  · exact foldl_pres _ _ (fun _ a hs => PInv_headerScanStep _ _ _ hs) cols _ h2

theorem StInv_processTallRow (cols : List String) (cfg : Config) (row : Row)
    {hid : String} {st : RunState} (h : StInv hid st) :
    StInv hid (processTallRow cols cfg hid st row) := by
  simp only [processTallRow]
  split
  · exact h
  · obtain ⟨hs1, hlt1, -⟩ :=
      StInv_getOrCreate h (extract_code row cfg).1 (extract_code row cfg).2
        (getDesc row cfg.description_column) (extract_setting row cfg)
    exact (PInv_tallPricePhase cols cfg.price_extraction cfg.skip_rules row ⟨hs1, hlt1⟩).1

theorem StInv_runTall (df : DF) (cfg : Config) (hid : String) :
    StInv hid (runTall df cfg hid) :=
  foldl_pres (StInv hid) _ (fun _ r hs => StInv_processTallRow df.cols cfg r hs)
    df.rows _ (StInv_init hid _)

theorem PInv_jGrossStep (co : JObj) (sk : SkipRules)
    {hid : String} {iid : Nat} {st : RunState} (h : PInv hid iid st) :
    PInv hid iid (jGrossStep co sk iid st).1 := by
  simp only [jGrossStep]
  repeat' split
  all_goals first | exact h | exact PInv_addDedup h _ _ _ _

theorem PInv_jCashStep (co : JObj) (sk : SkipRules)
    {hid : String} {iid : Nat} {st : RunState} (h : PInv hid iid st) :
    PInv hid iid (jCashStep co sk iid st).1 := by
  simp only [jCashStep]
  repeat' split
  all_goals first | exact h | exact PInv_addDedup h _ _ _ _

theorem PInv_jPayerObjStep (sk : SkipRules) {hid : String} {iid : Nat}
    (acc : RunState × Bool) (pobj : JVal) (h : PInv hid iid acc.1) :
    PInv hid iid (jPayerObjStep sk iid acc pobj).1 := by
  rcases acc with ⟨st0, b⟩
  cases b
  · exact h
  · simp only [jPayerObjStep]
    repeat' split
    all_goals first | exact h | exact PInv_addDedup h _ _ _ _

theorem PInv_jPayersStep (co : JObj) (sk : SkipRules)
    {hid : String} {iid : Nat} {st : RunState} (h : PInv hid iid st) :
    PInv hid iid (jPayersStep co sk iid st).1 := by
  simp only [jPayersStep]
  split
  · exact foldl_pres (fun p => PInv hid iid p.1) (jPayerObjStep sk iid)
      (fun p kv hp => PInv_jPayerObjStep sk p kv hp) _ (st, true) h
  · exact h

theorem PInv_jHeaderKeyStep (sk : SkipRules) {hid : String} {iid : Nat}
    (acc : RunState × Bool) (kv : String × JVal) (h : PInv hid iid acc.1) :
    PInv hid iid (jHeaderKeyStep sk iid acc kv).1 := by
  rcases acc with ⟨st0, b⟩
  cases b
  · exact h
  · simp only [jHeaderKeyStep]
    repeat' split
    all_goals first | exact h | exact PInv_addDedup h _ _ _ _

theorem PInv_jFallbackStep (pe : PriceExt) (sk : SkipRules) (record co : JObj)
    {hid : String} {iid : Nat} {st : RunState} (h : PInv hid iid st) :
    PInv hid iid (jFallbackStep pe sk record co iid st).1 := by
  simp only [jFallbackStep]
  split
  · repeat' split
    all_goals first | exact h | exact PInv_addDedup h _ _ _ _
  · exact foldl_pres (fun p => PInv hid iid p.1) (jHeaderKeyStep sk iid)
      (fun p kv hp => PInv_jHeaderKeyStep sk p kv hp) _ (st, true) h

theorem PInv_chargeStepArr (pe : PriceExt) (sk : SkipRules) (record : JObj)
    {hid : String} {iid : Nat} (acc : RunState × Bool) (cov : JVal)
    (h : PInv hid iid acc.1) :
    PInv hid iid (chargeStepArr pe sk record iid acc cov).1 := by
  rcases acc with ⟨st0, b⟩
  cases b
  · exact h
  · simp only [chargeStepArr]
    split
    · rename_i co
      have h1 := PInv_jGrossStep co sk h
      split
      · rename_i st1 heq
        rw [heq] at h1
        exact h1
      · rename_i st1 heq
        rw [heq] at h1
        have h2 := PInv_jCashStep co sk h1
        split
        · rename_i st2 heq2
          rw [heq2] at h2
          exact h2
        · rename_i st2 heq2
          rw [heq2] at h2
          have h3 := PInv_jPayersStep co sk h2
          split
          · rename_i st3 heq3
            rw [heq3] at h3
            exact h3
          · rename_i st3 heq3
            rw [heq3] at h3
            exact PInv_jFallbackStep pe sk record co h3
    · exact h

theorem PInv_chargeStepDict (sk : SkipRules) (co : JObj)
    {hid : String} {iid : Nat} {st : RunState} (h : PInv hid iid st) :
    PInv hid iid (chargeStepDict sk co iid st).1 := by
  simp only [chargeStepDict]
  have h1 := PInv_jGrossStep co sk h
  split
  · rename_i st1 heq
    rw [heq] at h1
    exact h1
  · rename_i st1 heq
    rw [heq] at h1
    have h2 := PInv_jCashStep co sk h1
    split
    · rename_i st2 heq2
      rw [heq2] at h2
      exact h2
    · rename_i st2 heq2
      rw [heq2] at h2
      exact PInv_jPayersStep co sk h2

theorem StInv_processJsonRecord (cfg : Config) (record : JVal)
    {hid : String} {st : RunState} (h : StInv hid st) :
    StInv hid (processJsonRecord cfg hid st record).1 := by
  rcases record with _ | _ | _ | _ | l | kvs
  case obj =>
    simp only [processJsonRecord]
    split
    · exact h
    · rename_i c _
      split
      · exact h
      · split
        · exact h
        · rename_i setting _
          obtain ⟨hs1, hlt1, -⟩ :=
            StInv_getOrCreate h c.1 c.2 (getDescJ kvs cfg.description_column) setting
          have hp1 : PInv hid (getOrCreateItem st c.1 c.2
              (getDescJ kvs cfg.description_column) hid setting).1
              (getOrCreateItem st c.1 c.2
                (getDescJ kvs cfg.description_column) hid setting).2 := ⟨hs1, hlt1⟩
          split
          · split
            · exact hp1.1
            · split
              · exact hp1.1
              · exact (foldl_pres (fun p => PInv hid _ p.1)
                  (chargeStepArr cfg.price_extraction cfg.skip_rules kvs _)
                  (fun p cov hp => PInv_chargeStepArr cfg.price_extraction cfg.skip_rules kvs p cov hp)
                  _ (_, true) hp1).1
              · exact (PInv_chargeStepDict cfg.skip_rules _ hp1).1
              · exact hp1.1
          · exact hp1.1
  all_goals exact h

theorem StInv_runJsonRecords (cfg : Config) {hid : String} :
    ∀ (l : List JVal) (st : RunState), StInv hid st →
      StInv hid (runJsonRecords cfg hid st l).1 := by
  intro l
  induction l with
  | nil => intro st h; exact h
  | cons r rs ih =>
    intro st h
    simp only [runJsonRecords]
    have hr := StInv_processJsonRecord cfg r h
    split
    · rename_i st1 heq
      rw [heq] at hr
      exact ih st1 hr
    · rename_i st1 heq
      rw [heq] at hr
      exact hr

theorem StInv_runJson (data : JVal) (cfg : Config) (hid : String) :
    StInv hid (runJson data cfg hid).1 := by
  simp only [runJson]
  split
  · exact StInv_init hid _
  · exact StInv_runJsonRecords cfg _ _ (StInv_init hid _)
  · exact StInv_init hid _

/-! ### The wide path only needs the hospital-id invariant -/

/-- All items of a run state belong to one hospital. -/
def HidInv (hid : String) (st : RunState) : Prop :=
  ∀ p ∈ st.items, p.1.hospital_id = hid

theorem HidInv_addPlain {hid : String} {st : RunState} (h : HidInv hid st)
    (iid : Nat) (payer : String) (plan : Option String) (a : Option PyFloat)
    (nt : Option String) : HidInv hid (addPlain st iid payer plan a nt) := by
  intro p hp
  have hfst : p.1 ∈ (addOfferAt st.items iid ⟨payer, plan, a, nt⟩).map Prod.fst :=
    List.mem_map_of_mem Prod.fst hp
  rw [addOfferAt_map_fst] at hfst
  obtain ⟨q, hq, hqe⟩ := List.mem_map.mp hfst
  rw [← hqe]
  exact h q hq

theorem HidInv_wideScanStep (sk : SkipRules) (row : Row) (iid : Nat) (col : String)
    {hid : String} {st : RunState} (h : HidInv hid st) :
    HidInv hid (wideScanStep sk row iid st col) := by
  simp only [wideScanStep]
  repeat' split
  all_goals first | exact h | exact HidInv_addPlain h _ _ _ _ _

theorem HidInv_processWideRow (cols : List String) (cfg : Config) (row : Row)
    {hid : String} {st : RunState} (h : HidInv hid st) :
    HidInv hid (processWideRow cols cfg hid st row) := by
  simp only [processWideRow]
  split
  · exact h
  · refine foldl_pres (HidInv hid) _ (fun s c hs => HidInv_wideScanStep _ _ _ _ hs) cols _ ?_
    intro p hp
    rcases List.mem_append.mp hp with hp | hp
    · exact h p hp
    · simp at hp
      rw [hp]

theorem HidInv_runWide (df : DF) (cfg : Config) (hid : String) :
    HidInv hid (runWide df cfg hid) := by
  refine foldl_pres (HidInv hid) _ (fun s r hs => HidInv_processWideRow df.cols cfg r hs)
    df.rows _ ?_
  intro p hp
  simp [initState] at hp

/-- Every item an ingestion run produces belongs to the hospital being
ingested, whether the run succeeded or aborted partway. -/
theorem ingestFile_hid (fd : FileData) (cfg : Config) (hid : String) :
    ∀ p ∈ (ingestFile fd cfg hid).1.items, p.1.hospital_id = hid := by
  rcases fd with df | data
  · simp only [ingestFile]
    split
    · exact HidInv_runWide df cfg hid
    · exact (StInv_runTall df cfg hid).1
  · exact (StInv_runJson data cfg hid).1

theorem deleteHospitalData_idem (s : Store) (hid : String) :
    deleteHospitalData (deleteHospitalData s hid) hid = deleteHospitalData s hid := by
  simp only [deleteHospitalData]
  apply List.filter_eq_self.mpr
  intro a ha
  exact (List.mem_filter.mp ha).2

theorem deleteHospitalData_append_own (s new : Store) (hid : String)
    (hnew : ∀ p ∈ new, p.1.hospital_id = hid) :
    deleteHospitalData (s ++ new) hid = deleteHospitalData s hid := by
  simp only [deleteHospitalData, List.filter_append]
  have hnil : new.filter (fun p => decide (p.1.hospital_id ≠ hid)) = [] := by
    apply List.filter_eq_nil_iff.mpr
    intro a ha
    simp [hnew a ha]
  rw [hnil, List.append_nil]

/-! ## Characterization lemmas for the value parser -/

theorem mem_takeWhile_pred {p : Char → Bool} :
    ∀ {l : List Char} {c : Char}, c ∈ l.takeWhile p → p c = true := by
  intro l
  induction l with
  | nil => intro c hc; simp at hc
  | cons a l ih =>
    intro c hc
    by_cases hpa : p a = true
    · rw [List.takeWhile_cons_of_pos hpa] at hc
      rcases List.mem_cons.mp hc with rfl | h2
      · exact hpa
      · exact ih h2
    · rw [List.takeWhile_cons_of_neg hpa] at hc
      simp at hc

theorem pyFloatCore_chars {rest : List Char} {sgn : Int} {v : PyFloat}
    (h : pyFloatCore rest sgn = some v) :
    ∀ c ∈ rest, c = '.' ∨ pyDigit c = true := by
  intro c hc
  unfold pyFloatCore at h
  split at h
  · rename_i heq
    have hs2 := List.takeWhile_append_dropWhile pyDigit rest
    rw [heq, List.append_nil] at hs2
    right
    exact mem_takeWhile_pred (hs2 ▸ hc)
  · rename_i c2 fr heq
    split at h
    · rename_i hdot
      split at h
      · rename_i hcond
        rw [Bool.and_eq_true] at hcond
        have hs2 := List.takeWhile_append_dropWhile pyDigit rest
        rw [heq] at hs2
        rw [← hs2] at hc
        rcases List.mem_append.mp hc with hc1 | hc2
        · right; exact mem_takeWhile_pred hc1
        · rcases List.mem_cons.mp hc2 with rfl | hc3
          · left; exact hdot
          · right; exact List.all_eq_true.mp hcond.1 c hc3
      · exact absurd h (by simp)
    · exact absurd h (by simp)

theorem pyFloatL_chars {cs : List Char} {v : PyFloat} (h : pyFloatL cs = some v) :
    ∀ c ∈ cs, c = '+' ∨ c = '-' ∨ c = '.' ∨ pyDigit c = true := by
  intro c hc
  unfold pyFloatL at h
  split at h
  · rename_i rest
    rcases List.mem_cons.mp hc with rfl | h2
    · right; left; rfl
    · rcases pyFloatCore_chars h c h2 with h3 | h3
      · right; right; left; exact h3
      · right; right; right; exact h3
  · rename_i rest
    rcases List.mem_cons.mp hc with rfl | h2
    · left; rfl
    · rcases pyFloatCore_chars h c h2 with h3 | h3
      · right; right; left; exact h3
      · right; right; right; exact h3
  · rcases pyFloatCore_chars h c hc with h3 | h3
    · right; right; left; exact h3
    · right; right; right; exact h3

theorem toLower_allowed {c : Char}
    (h : c = '+' ∨ c = '-' ∨ c = '.' ∨ pyDigit c = true) :
    Char.toLower c = c := by
  rcases h with rfl | rfl | rfl | hd
  · decide
  · decide
  · decide
  · simp only [pyDigit, decide_eq_true_eq] at hd
    rcases hd with rfl|rfl|rfl|rfl|rfl|rfl|rfl|rfl|rfl|rfl <;> decide

theorem isPrefixL_mem : ∀ {pat l : List Char}, isPrefixL pat l = true → ∀ c ∈ pat, c ∈ l := by
  intro pat
  induction pat with
  | nil => intro l _ c hc; simp at hc
  | cons p ps ih =>
    intro l h c hc
    cases l with
    | nil => simp [isPrefixL] at h
    | cons a l2 =>
      rw [isPrefixL, Bool.and_eq_true, decide_eq_true_eq] at h
      rcases List.mem_cons.mp hc with rfl | h2
      · rw [h.1]; exact List.mem_cons_self _ _
      · exact List.mem_cons_of_mem _ (ih h.2 c h2)

theorem isInfixL_mem {pat : List Char} :
    ∀ {l : List Char}, isInfixL pat l = true → ∀ c ∈ pat, c ∈ l := by
  intro l
  induction l with
  | nil =>
    intro h c hc
    rw [isInfixL] at h
    exact isPrefixL_mem h c hc
  | cons a l2 ih =>
    intro h c hc
    rw [isInfixL, Bool.or_eq_true] at h
    rcases h with h | h
    · exact isPrefixL_mem h c hc
    · exact List.mem_cons_of_mem _ (ih h c hc)

theorem noFormula_of_parse {t : String} {v : PyFloat}
    (h : pyFloatQ (cleanChars t) = some v) :
    (["formula", "algorithm", "see contract", "varies", "call for pricing"].any
      (fun p => containsSub (pyLower p) (pyLower t))) = false := by
  have key : ∀ (p : String) (c₀ : Char), c₀ ∈ (pyLower p).data →
      c₀ ≠ '+' → c₀ ≠ '-' → c₀ ≠ '.' → pyDigit c₀ = false → c₀ ≠ '$' → c₀ ≠ ',' →
      containsSub (pyLower p) (pyLower t) = false := by
    intro p c₀ hc0 h1 h2 h3 h4 h5 h6
    by_contra hcon
    rw [Bool.not_eq_false] at hcon
    have hc0t : c₀ ∈ (pyLower t).data := isInfixL_mem hcon c₀ hc0
    have hmapd : (pyLower t).data = t.data.map Char.toLower := rfl
    rw [hmapd] at hc0t
    obtain ⟨c', hc', hlow⟩ := List.mem_map.mp hc0t
    have hd1 : c' ≠ '$' := by
      rintro rfl
      exact h5 (by rw [← hlow]; decide)
    have hd2 : c' ≠ ',' := by
      rintro rfl
      exact h6 (by rw [← hlow]; decide)
    have hmemclean : c' ∈ (cleanChars t).data := by
      show c' ∈ t.data.filter (fun x => x ≠ '$' && x ≠ ',')
      rw [List.mem_filter]
      refine ⟨hc', ?_⟩
      simp [hd1, hd2]
    have hallowed := pyFloatL_chars h c' hmemclean
    have hfix := toLower_allowed hallowed
    rw [hfix] at hlow
    rw [← hlow] at h1 h2 h3 h4
    rcases hallowed with rfl | rfl | rfl | hd
    · exact h1 rfl
    · exact h2 rfl
    · exact h3 rfl
    · rw [hd] at h4; exact Bool.noConfusion h4
  simp only [List.any_cons, List.any_nil, Bool.or_false, Bool.or_eq_false_iff]
  refine ⟨?_, ?_, ?_, ?_, ?_⟩
  · exact key _ 'f' (by decide) (by decide) (by decide) (by decide) (by decide) (by decide)
      (by decide)
  · exact key _ 'a' (by decide) (by decide) (by decide) (by decide) (by decide) (by decide)
      (by decide)
  · exact key _ 's' (by decide) (by decide) (by decide) (by decide) (by decide) (by decide)
      (by decide)
  · exact key _ 'v' (by decide) (by decide) (by decide) (by decide) (by decide) (by decide)
      (by decide)
  · exact key _ 'c' (by decide) (by decide) (by decide) (by decide) (by decide) (by decide)
      (by decide)

theorem parse_price_of_parse {s : String} {v : PyFloat}
    (h : pyFloatQ (cleanChars (pyStrip s)) = some v) :
    parse_price (some (.str s)) {} =
      if pfLe (⟨99999999, 0⟩ : PyFloat) v then (none, none) else (some v, none) := by
  have hne : pyStrip s ≠ "" := by
    intro he
    rw [he, show pyFloatQ (cleanChars "") = none from by decide] at h
    exact Option.noConfusion h
  have hform := noFormula_of_parse h
  simp only [parse_price]
  rw [if_neg hne]
  unfold parsePriceCore
  rw [if_neg (by simp [hform] : ¬ ((({} : SkipRules).formula_patterns.any
    (fun p => containsSub (pyLower p) (pyLower (pyStrip s)))) = true))]
  rw [h]

theorem pfLe_toRat (a b : PyFloat) : pfLe a b = true ↔ a.toRat ≤ b.toRat := by
  rw [pfLe, decide_eq_true_iff, PyFloat.toRat, PyFloat.toRat,
    div_le_div_iff₀ (by positivity) (by positivity)]
  constructor
  · intro hle
    exact_mod_cast hle
  · intro hle
    exact_mod_cast hle

/-! ## Characterization lemmas for the code resolver -/

theorem prioLookup_unknown (pri : List String) : prioLookup pri "UNKNOWN" = 999 := by
  simp [prioLookup]

theorem scanStep_mono (row : Row) (ce : CodeExt) (best : String × String × Nat)
    (p : Nat × String) : (scanStep row ce best p).2.2 ≤ best.2.2 := by
  unfold scanStep
  split
  · exact le_refl _
  · split
    · rename_i hlt
      exact le_of_lt hlt
    · exact le_refl _

theorem scanFold_mono (row : Row) (ce : CodeExt) :
    ∀ (l : List (Nat × String)) (best : String × String × Nat),
      (l.foldl (scanStep row ce) best).2.2 ≤ best.2.2 := by
  intro l
  induction l with
  | nil => intro best; exact le_refl _
  | cons p l ih =>
    intro best
    exact le_trans (ih (scanStep row ce best p)) (scanStep_mono row ce best p)

theorem scanFold_stay (row : Row) (ce : CodeExt) :
    ∀ (l : List (Nat × String)) (best : String × String × Nat),
      (∀ p ∈ l, ∀ ct, candAt row ce p.1 p.2 = some ct →
        999 ≤ prioLookup ce.priority ct.2) →
      best.2.2 ≤ 999 → l.foldl (scanStep row ce) best = best := by
  intro l
  induction l with
  | nil => intro best _ _; rfl
  | cons p l ih =>
    intro best hall hb
    have hstep : scanStep row ce best p = best := by
      unfold scanStep
      split
      · rfl
      · rename_i c hc
        rw [if_neg]
        intro hlt
        exact absurd (lt_of_lt_of_le hlt hb) (not_lt.mpr (hall p (List.mem_cons_self _ _) c hc))
    rw [List.foldl_cons, hstep]
    exact ih best (fun q hq => hall q (List.mem_cons_of_mem _ hq)) hb

theorem scanFold_good (row : Row) (ce : CodeExt) :
    ∀ (l : List (Nat × String)) (best : String × String × Nat),
      (best = ("UNKNOWN", "UNKNOWN", 999) ∨
        (best.2.2 < 999 ∧ prioLookup ce.priority best.2.1 = best.2.2)) →
      ((l.foldl (scanStep row ce) best) = ("UNKNOWN", "UNKNOWN", 999) ∨
        ((l.foldl (scanStep row ce) best).2.2 < 999 ∧
          prioLookup ce.priority (l.foldl (scanStep row ce) best).2.1 =
            (l.foldl (scanStep row ce) best).2.2)) := by
  intro l
  induction l with
  | nil => intro best hb; exact hb
  | cons p l ih =>
    intro best hb
    rw [List.foldl_cons]
    apply ih
    unfold scanStep
    split
    · exact hb
    · split
      · rename_i c hc hlt
        right
        have hb999 : best.2.2 ≤ 999 := by
          rcases hb with rfl | ⟨hlt2, _⟩
          · exact le_refl _
          · exact le_of_lt hlt2
        exact ⟨lt_of_lt_of_le hlt hb999, rfl⟩
      · exact hb

theorem scanFold_hit (row : Row) (ce : CodeExt) :
    ∀ (l : List (Nat × String)) (best : String × String × Nat), best.2.2 ≤ 999 →
      (∃ p ∈ l, ∃ ct, candAt row ce p.1 p.2 = some ct ∧
        prioLookup ce.priority ct.2 < 999) →
      (l.foldl (scanStep row ce) best).2.2 < 999 := by
  intro l
  induction l with
  | nil =>
    intro best _ hw
    obtain ⟨p, hp, -⟩ := hw
    simp at hp
  | cons p l ih =>
    intro best hb hw
    obtain ⟨q, hq, ct, hct, hlt⟩ := hw
    rw [List.foldl_cons]
    rcases List.mem_cons.mp hq with rfl | hq2
    · have hstep : (scanStep row ce best q).2.2 < 999 := by
        unfold scanStep
        split
        · rename_i hnone
          rw [hct] at hnone
          exact Option.noConfusion hnone
        · rename_i c hc
          rw [hct] at hc
          injection hc with hcc
          subst hcc
          split
          · exact hlt
          · rename_i hnlt
            exact lt_of_le_of_lt (not_lt.mp hnlt) hlt
      exact lt_of_le_of_lt (scanFold_mono row ce l _) hstep
    · exact ih (scanStep row ce best p)
        (le_trans (scanStep_mono row ce best p) hb) ⟨q, hq2, ct, hct, hlt⟩

theorem autoNormalize_fst (a : Bool) (b : String × String × Nat) :
    (autoNormalize a b).1 = b.1 := by
  unfold autoNormalize
  split
  · split
    · rfl
    · split
      · rfl
      · rfl
  · rfl

theorem autoNormalize_snd_cases (a : Bool) (b : String × String × Nat) :
    (autoNormalize a b).2 = "CPT" ∨ (autoNormalize a b).2 = "HCPCS" ∨
      (autoNormalize a b).2 = b.2.1 := by
  unfold autoNormalize
  split
  · split
    · exact Or.inl rfl
    · split
      · exact Or.inr (Or.inl rfl)
      · exact Or.inr (Or.inr rfl)
  · exact Or.inr (Or.inr rfl)

theorem extract_code_scan (row : Row) (cfg : Config)
    (hcols : cfg.code_extraction.columns ≠ []) :
    extract_code row cfg =
      autoNormalize cfg.code_extraction.auto_normalize (codeScan row cfg.code_extraction) := by
  unfold extract_code
  rw [if_neg hcols]

theorem codeScan_auto_irrel (row : Row) (ce : CodeExt) (b : Bool) :
    codeScan row { ce with auto_normalize := b } = codeScan row ce := rfl

/-! ## Concrete scenario inputs -/

/-- The tall CSV row of the spec's end-to-end scenario (one row; the
descriptor-default payer, price and gross columns are present). -/
def dfC2 : DF :=
  ⟨["code|1", "code|1|type", "description", "payer_name",
    "standard_charge|negotiated_dollar", "standard_charge|gross"],
   [[("code|1", .str "99213"), ("code|1|type", .str "CPT"),
     ("description", .str "Office Visit"), ("payer_name", .str "Aetna"),
     ("standard_charge|negotiated_dollar", .str "150.00"),
     ("standard_charge|gross", .str "300.00")]]⟩

/-- A column-style tall descriptor with the scenario's code columns. -/
def cfgC2 : Config :=
  { code_extraction := { columns := ["code|1"], type_columns := ["code|1|type"] } }

/-- The wide CSV of the header-style end-to-end scenario. -/
def dfC9 : DF :=
  ⟨["code", "ct", "description", "standard_charge|Cigna|Open Access|negotiated_dollar"],
   [[("code", .str "12345"), ("ct", .str "CPT"), ("description", .str "MRI"),
     ("standard_charge|Cigna|Open Access|negotiated_dollar", .str "200")]]⟩

/-- A wide header-style descriptor. -/
def cfgC9 : Config :=
  { format_type := "wide",
    code_extraction := { columns := ["code"], type_columns := ["ct"] },
    price_extraction := { payer_style := "header" } }

/-- A tall CSV row carrying only a percentage (and methodology) price, no
dollar column at all. -/
def dfC4 : DF :=
  ⟨["code|1", "code|1|type", "description", "payer_name",
    "standard_charge|negotiated_percentage", "standard_charge|methodology"],
   [[("code|1", .str "99213"), ("code|1|type", .str "CPT"),
     ("description", .str "Office Visit"), ("payer_name", .str "Aetna"),
     ("standard_charge|negotiated_percentage", .str "50"),
     ("standard_charge|methodology", .str "percent of total billed charges")]]⟩

/-- A wide CSV row in which two differently named price columns denote the
same conceptual price for the same payer. -/
def dfC7 : DF :=
  ⟨["code", "ct", "description", "price|Aetna", "standard_charge|Aetna"],
   [[("code", .str "12345"), ("ct", .str "CPT"), ("description", .str "X"),
     ("price|Aetna", .str "100"), ("standard_charge|Aetna", .str "100")]]⟩

/-- Code-extraction descriptor of the priority-stability scenario, one
column order. -/
def ceC6A : CodeExt :=
  { columns := ["c1", "c2"], type_columns := ["t1", "t2"], priority := ["HCPCS", "Local"] }

/-- Code-extraction descriptor of the priority-stability scenario, the other
column order. -/
def ceC6B : CodeExt :=
  { columns := ["c2", "c1"], type_columns := ["t2", "t1"], priority := ["HCPCS", "Local"] }

/-- The row of the priority-stability scenario. -/
def rowC6 : Row :=
  [("c1", .str "12345"), ("t1", .str "Local"), ("c2", .str "A1234"), ("t2", .str "HCPCS")]

/-- A descriptor with a single code column and no type column. -/
def cfgC3 : Config := { code_extraction := { columns := ["c"] } }

/-- A row with a non-empty code whose scheme defaults to Unknown. -/
def rowC3 : Row := [("c", .str "ABC12")]

/-- A descriptor with one code and one type column. -/
def cfgC5 : Config := { code_extraction := { columns := ["c"], type_columns := ["t"] } }

/-! ## Claims -/

/-- C1: Re-ingestion is idempotent: for every source file, descriptor and
hospital id, running `ingest_hospital` twice in succession for the same
hospital yields exactly the same final store contents and the same
`(itemsCreated, offersCreated)` counts as running it once, because all
existing items (and their offers) for the hospital are deleted before each
run and the run itself is a deterministic function of the file and the
descriptor. -/
theorem C1_reingest_idempotent (store : Store) (file : Option (Except String FileData))
    (cfg : Config) (hid : String) :
    ingestHospital (ingestHospital store file cfg hid).1 file cfg hid =
      ingestHospital store file cfg hid := by
  rcases file with _ | load
  · rfl
  · rcases load with e | fd
    · simp only [ingestHospital]
      rw [deleteHospitalData_idem]
    · simp only [ingestHospital]
      rcases hfd : ingestFile fd cfg hid with ⟨st, b⟩
      have hnew : ∀ p ∈ st.items, p.1.hospital_id = hid := by
        have hh := ingestFile_hid fd cfg hid
        rw [hfd] at hh
        exact hh
      cases b
      · simp only [hfd]
        rw [deleteHospitalData_append_own _ _ _ hnew, deleteHospitalData_idem]
      · simp only [hfd]
        rw [deleteHospitalData_append_own _ _ _ hnew, deleteHospitalData_idem]

/-- C2 counterexample: on the spec's own tall scenario row, with a
column-style descriptor, the header-style auto-detection fires (the price
column's name contains `negotiated_dollar` and a pipe), so the run produces
an offer whose payer is the literal column-name segment
`"negotiated_dollar"` — no offer with payer `"Aetna"` exists, contradicting
the claimed `Aetna/150.00` offer. -/
theorem C2_counterexample :
    (runTall dfC2 cfgC2 "H1").items =
      [(⟨"99213", "CPT", "Office Visit", "H1", "UNKNOWN"⟩,
        [⟨"negotiated_dollar", none, some ⟨150, 0⟩, none⟩,
         ⟨"GROSS", none, some ⟨300, 0⟩, none⟩])] ∧
    (∀ k ∈ offerKeys (runTall dfC2 cfgC2 "H1").items, k.2.1 ≠ "Aetna") := by decide

/-- C2 amended: on the scenario row the descriptor says column style, but
because a pipe-delimited `negotiated_dollar` column exists the run
auto-switches to header style; it produces exactly one item
(`99213`/CPT/"Office Visit") and exactly two offers: payer
`"negotiated_dollar"` (parsed from the column name; the `payer_name` cell
`Aetna` is ignored) with amount 150.00, and `GROSS` with amount 300.00. -/
theorem C2_amended :
    autoDetectHeader dfC2.cols = true ∧
    cfgC2.price_extraction.payer_style = "column" ∧
    (runTall dfC2 cfgC2 "H1").payerStyle = "header" ∧
    (runTall dfC2 cfgC2 "H1").items =
      [(⟨"99213", "CPT", "Office Visit", "H1", "UNKNOWN"⟩,
        [⟨"negotiated_dollar", none, some ⟨150, 0⟩, none⟩,
         ⟨"GROSS", none, some ⟨300, 0⟩, none⟩])] ∧
    (runTall dfC2 cfgC2 "H1").itemsCreated = 1 ∧
    (runTall dfC2 cfgC2 "H1").pricesCreated = 2 := by decide

/-- C3 counterexample: a configured code column is present and non-empty
(cell `"ABC12"`, scheme defaulting to Unknown), yet `extract_code` returns
`("UNKNOWN", "UNKNOWN")` — the candidate's 999 priority is not strictly
better than the initial 999, so it is discarded, contradicting the claimed
equivalence. -/
theorem C3_counterexample :
    extract_code rowC3 cfgC3 = ("UNKNOWN", "UNKNOWN") ∧
    afind rowC3 "c" = some (.str "ABC12") ∧
    candAt rowC3 cfgC3.code_extraction 0 "c" = some ("ABC12", "UNKNOWN") := by decide

/-- C3 amended: with a non-empty code-column list, `extract_code` returns
`("UNKNOWN", "UNKNOWN")` if and only if every candidate a configured column
yields scores 999 or worse under the priority list (in particular every
candidate whose scheme defaults to Unknown, or is absent from the priority
list, is discarded rather than returned). -/
theorem C3_amended (row : Row) (cfg : Config)
    (hcols : cfg.code_extraction.columns ≠ []) :
    extract_code row cfg = ("UNKNOWN", "UNKNOWN") ↔
      ∀ p ∈ cfg.code_extraction.columns.enum, ∀ ct,
        candAt row cfg.code_extraction p.1 p.2 = some ct →
          999 ≤ prioLookup cfg.code_extraction.priority ct.2 := by
  have hcs : codeScan row cfg.code_extraction =
      cfg.code_extraction.columns.enum.foldl (scanStep row cfg.code_extraction)
        ("UNKNOWN", "UNKNOWN", 999) := rfl
  rw [extract_code_scan row cfg hcols]
  constructor
  · intro h
    by_contra hnot
    push_neg at hnot
    obtain ⟨p, hp, ct, hct, hlt⟩ := hnot
    have hfin := scanFold_hit row cfg.code_extraction cfg.code_extraction.columns.enum
      ("UNKNOWN", "UNKNOWN", 999) (le_refl _) ⟨p, hp, ct, hct, hlt⟩
    rw [← hcs] at hfin
    have hgood := scanFold_good row cfg.code_extraction cfg.code_extraction.columns.enum
      ("UNKNOWN", "UNKNOWN", 999) (Or.inl rfl)
    rw [← hcs] at hgood
    rcases hgood with heq | ⟨hlt2, hprio⟩
    · rw [heq] at hfin
      exact absurd hfin (by norm_num)
    · have hne : (codeScan row cfg.code_extraction).2.1 ≠ "UNKNOWN" := by
        intro he
        rw [he, prioLookup_unknown] at hprio
        rw [← hprio] at hfin
        exact lt_irrefl _ hfin
      have hsnd := congrArg Prod.snd h
      rcases autoNormalize_snd_cases cfg.code_extraction.auto_normalize
          (codeScan row cfg.code_extraction) with hs | hs | hs
      · rw [hs] at hsnd
        exact absurd hsnd (by decide)
      · rw [hs] at hsnd
        exact absurd hsnd (by decide)
      · rw [hs] at hsnd
        exact hne hsnd
  · intro hall
    have hstay := scanFold_stay row cfg.code_extraction cfg.code_extraction.columns.enum
      ("UNKNOWN", "UNKNOWN", 999) hall (le_refl _)
    rw [← hcs] at hstay
    rw [hstay]
    have hlen7 : ("UNKNOWN" : String).length = 7 := rfl
    simp [autoNormalize, hlen7]

/-- C3 witness: the amended equivalence applied at the counterexample's
concrete row and descriptor. -/
theorem C3_amended_witness :
    extract_code rowC3 cfgC3 = ("UNKNOWN", "UNKNOWN") ↔
      ∀ p ∈ cfgC3.code_extraction.columns.enum, ∀ ct,
        candAt rowC3 cfgC3.code_extraction p.1 p.2 = some ct →
          999 ≤ prioLookup cfgC3.code_extraction.priority ct.2 :=
  C3_amended rowC3 cfgC3 (by decide)

/-- C4 counterexample: a tall row whose configured price column is absent
and whose percentage column holds `"50"` (with a methodology column) is
ingested with zero offers — no `"PERCENTAGE: 50% (...)"` note is
synthesized and no percentage-only offer exists in the store, contradicting
the claim. -/
theorem C4_counterexample :
    afind (dfC4.rows.headI) "standard_charge|negotiated_percentage" = some (.str "50") ∧
    (runTall dfC4 cfgC2 "H1").itemsCreated = 1 ∧
    (runTall dfC4 cfgC2 "H1").pricesCreated = 0 ∧
    offerKeys (runTall dfC4 cfgC2 "H1").items = [] := by decide

/-- C4 amended: column-style extraction never consults a percentage column;
when the configured price column parses to no amount and no note and no
sibling column is configured, no payer offer is created at all — a
percentage-only row therefore produces no offer. -/
theorem C4_amended (pe : PriceExt) (sk : SkipRules) (row : Row) (iid : Nat) (st : RunState)
    (hsib : pe.sibling_columns = [])
    (hpr : parse_price (afind row (pe.price_column.getD "standard_charge|negotiated_dollar")) sk
      = (none, none)) :
    columnStylePrices pe sk row iid st = st := by
  simp only [columnStylePrices, hpr, hsib]
  split
  · split
    · simp [findSiblingNote]
    · rfl
  · rfl

/-- C4 witness: the amended statement applied to the percentage-only row
with the default price-extraction descriptor. -/
theorem C4_amended_witness :
    columnStylePrices cfgC2.price_extraction {} (dfC4.rows.headI) 0 (initState "column") =
      initState "column" :=
  C4_amended _ _ _ _ _ (by decide) (by decide)

/-- C5 counterexample: the winning code `"ABCDE"` has exactly 5 characters
and starts with a letter, yet auto-normalization leaves its declared scheme
`CDM` untouched (the remaining four characters are not digits), contradicting
the claim that any 5-character code starting with a letter is forced to
HCPCS. -/
theorem C5_counterexample :
    extract_code [("c", .str "ABCDE"), ("t", .str "CDM")] cfgC5 = ("ABCDE", "CDM") ∧
    ("ABCDE" : String).length = 5 ∧ ('A').isAlpha = true ∧
    extract_code [("c", .str "ABCDE"), ("t", .str "CDM")] cfgC5 ≠ ("ABCDE", "HCPCS") := by
  decide

/-- C5 amended: with auto-normalization enabled and a non-empty code-column
list, the winning code is unchanged, and for a 5-character winning code the
scheme is forced to `CPT` when the code is all digits and to `HCPCS` when it
is a letter followed by four digits; in every other case (including all
other codes starting with a letter) the scheme is exactly what the scan
resolved, i.e. what the run with auto-normalization disabled returns. -/
theorem C5_amended (row : Row) (cfg : Config)
    (hcols : cfg.code_extraction.columns ≠ [])
    (hauto : cfg.code_extraction.auto_normalize = true) :
    (extract_code row cfg).1 =
      (extract_code row { cfg with code_extraction :=
        { cfg.code_extraction with auto_normalize := false } }).1 ∧
    ((extract_code row cfg).1.length = 5 →
      (pyIsDigitStr (extract_code row cfg).1 = true → (extract_code row cfg).2 = "CPT") ∧
      (pyIsDigitStr (extract_code row cfg).1 = false →
        headAlphaTailDigits (extract_code row cfg).1 = true →
        (extract_code row cfg).2 = "HCPCS") ∧
      (pyIsDigitStr (extract_code row cfg).1 = false →
        headAlphaTailDigits (extract_code row cfg).1 = false →
        (extract_code row cfg).2 =
          (extract_code row { cfg with code_extraction :=
            { cfg.code_extraction with auto_normalize := false } }).2)) ∧
    ((extract_code row cfg).1.length ≠ 5 →
      (extract_code row cfg).2 =
        (extract_code row { cfg with code_extraction :=
          { cfg.code_extraction with auto_normalize := false } }).2) := by
  have h0 : extract_code row { cfg with code_extraction :=
      { cfg.code_extraction with auto_normalize := false } } =
      ((codeScan row cfg.code_extraction).1, (codeScan row cfg.code_extraction).2.1) := by
    rw [extract_code_scan row
      { cfg with code_extraction := { cfg.code_extraction with auto_normalize := false } }
      hcols]
    rw [codeScan_auto_irrel]
    show autoNormalize false _ = _
    unfold autoNormalize
    simp
  have h1 : extract_code row cfg =
      autoNormalize true (codeScan row cfg.code_extraction) := by
    rw [extract_code_scan row cfg hcols, hauto]
  have hb1 : (extract_code row cfg).1 = (codeScan row cfg.code_extraction).1 := by
    rw [h1, autoNormalize_fst]
  refine ⟨?_, ?_, ?_⟩
  · rw [h1, h0, autoNormalize_fst]
  · intro hlen
    rw [hb1] at hlen
    refine ⟨?_, ?_, ?_⟩
    · intro hdig
      rw [hb1] at hdig
      rw [h1]
      unfold autoNormalize
      rw [if_pos (by simp [hlen]), if_pos hdig]
    · intro hdig halpha
      rw [hb1] at hdig halpha
      rw [h1]
      unfold autoNormalize
      rw [if_pos (by simp [hlen]), if_neg (by simp [hdig]), if_pos halpha]
    · intro hdig halpha
      rw [hb1] at hdig halpha
      rw [h1, h0]
      unfold autoNormalize
      rw [if_pos (by simp [hlen]), if_neg (by simp [hdig]), if_neg (by simp [halpha])]
  · intro hlen
    rw [hb1] at hlen
    rw [h1, h0]
    unfold autoNormalize
    rw [if_neg (by simp [hlen])]

/-- C5 witness: the amended statement applied to a 5-character code that is
a letter followed by four digits, forcing HCPCS over the declared CDM. -/
theorem C5_amended_witness :
    (extract_code [("c", .str "A1234"), ("t", .str "CDM")] cfgC5).2 = "HCPCS" := by
  have h := C5_amended [("c", .str "A1234"), ("t", .str "CDM")] cfgC5 (by decide) (by decide)
  exact (h.2.1 (by decide)).2.1 (by decide) (by decide)

/-- C6 counterexample: two candidate columns yielding codes with equal
priority (both schemes default to Unknown, priority 999), yet the resolver
keeps neither — it returns the `("UNKNOWN", "UNKNOWN")` sentinel instead of
the first-seen candidate `("AB", "UNKNOWN")`, contradicting the claim that
among candidates of equal priority the first-seen is kept. -/
theorem C6_counterexample :
    extract_code [("c1", .str "AB"), ("c2", .str "CD")]
        { code_extraction := { columns := ["c1", "c2"] } } = ("UNKNOWN", "UNKNOWN") ∧
    candAt [("c1", .str "AB"), ("c2", .str "CD")] { columns := ["c1", "c2"] } 0 "c1" =
      some ("AB", "UNKNOWN") ∧
    candAt [("c1", .str "AB"), ("c2", .str "CD")] { columns := ["c1", "c2"] } 1 "c2" =
      some ("CD", "UNKNOWN") ∧
    extract_code [("c1", .str "AB"), ("c2", .str "CD")]
        { code_extraction := { columns := ["c1", "c2"] } } ≠ ("AB", "UNKNOWN") := by decide

/-- Code-extraction descriptor of the general two-column tie scenario. -/
def ceC6G (pri : List String) (auto : Bool) : CodeExt :=
  { columns := ["c1", "c2"], type_columns := ["t1", "t2"],
    priority := pri, auto_normalize := auto }

/-- Row of the general two-column tie scenario: two code cells with one
shared type value. -/
def rowC6G (code1 code2 ty : String) : Row :=
  [("c1", .str code1), ("t1", .str ty), ("c2", .str code2), ("t2", .str ty)]

/-- C6 amended: the scenario candidates `("12345", "Local")` and
`("A1234", "HCPCS")` under priority `["HCPCS", "Local"]` resolve to
`("A1234", "HCPCS")` for both column orders; and among two candidates of
equal priority whose shared scheme appears in the priority list, the
first-seen (first column) candidate's code is kept — candidates whose
scheme is absent from the list (score 999) are never kept at all. -/
theorem C6_amended :
    (extract_code rowC6 { code_extraction := ceC6A } = ("A1234", "HCPCS") ∧
     extract_code rowC6 { code_extraction := ceC6B } = ("A1234", "HCPCS")) ∧
    ∀ (pri : List String) (auto : Bool) (code1 code2 ty : String),
      pyStrip code1 ≠ "" → pyStrip code1 ≠ "nan" →
      pyStrip code2 ≠ "" → pyStrip code2 ≠ "nan" →
      pyStrip ty ≠ "" → pyStrip ty ≠ "CPT" → pyStrip ty ≠ "HCPCS" →
      prioLookup pri (pyStrip ty) < 999 →
      (extract_code (rowC6G code1 code2 ty)
        { code_extraction := ceC6G pri auto }).1 = pyStrip code1 := by
  refine ⟨⟨by decide, by decide⟩, ?_⟩
  intro pri auto code1 code2 ty h1 h1n h2 h2n hty htyC htyH htyP
  have hfind1 : afind (rowC6G code1 code2 ty) "c1" = some (CellV.str code1) := rfl
  have hfindT1 : afind (rowC6G code1 code2 ty) "t1" = some (CellV.str ty) := rfl
  have hfind2 : afind (rowC6G code1 code2 ty) "c2" = some (CellV.str code2) := rfl
  have hfindT2 : afind (rowC6G code1 code2 ty) "t2" = some (CellV.str ty) := rfl
  have hc1 : candAt (rowC6G code1 code2 ty) (ceC6G pri auto) 0 "c1" =
      some (pyStrip code1, pyStrip ty) := by
    simp [candAt, ceC6G, hfind1, hfindT1, h1, h1n, hty, htyC, htyH, cellStr]
  have hc2 : candAt (rowC6G code1 code2 ty) (ceC6G pri auto) 1 "c2" =
      some (pyStrip code2, pyStrip ty) := by
    simp [candAt, ceC6G, hfind2, hfindT2, h2, h2n, hty, htyC, htyH, cellStr]
  have hprieq : (ceC6G pri auto).priority = pri := rfl
  have hstep1 : scanStep (rowC6G code1 code2 ty) (ceC6G pri auto)
      ("UNKNOWN", "UNKNOWN", 999) (0, "c1") =
      (pyStrip code1, pyStrip ty, prioLookup pri (pyStrip ty)) := by
    simp only [scanStep, hc1, hprieq]
    rw [if_pos htyP]
  have hstep2 : scanStep (rowC6G code1 code2 ty) (ceC6G pri auto)
      (pyStrip code1, pyStrip ty, prioLookup pri (pyStrip ty)) (1, "c2") =
      (pyStrip code1, pyStrip ty, prioLookup pri (pyStrip ty)) := by
    simp only [scanStep, hc2, hprieq]
    rw [if_neg (lt_irrefl _)]
  have henum : (ceC6G pri auto).columns.enum = [(0, "c1"), (1, "c2")] := rfl
  have hscan : codeScan (rowC6G code1 code2 ty) (ceC6G pri auto) =
      (pyStrip code1, pyStrip ty, prioLookup pri (pyStrip ty)) := by
    unfold codeScan
    rw [henum, List.foldl_cons, hstep1, List.foldl_cons, hstep2, List.foldl_nil]
  have hcolsW : ({ code_extraction := ceC6G pri auto } : Config).code_extraction.columns ≠ [] := by
    show (["c1", "c2"] : List String) ≠ []
    decide
  rw [extract_code_scan (rowC6G code1 code2 ty)
    { code_extraction := ceC6G pri auto } hcolsW, hscan, autoNormalize_fst]

/-- C6 witness: the amended tie rule applied at concrete equal-priority
candidates `("12345", "CDM")` and `("67890", "CDM")`: the first column's
code wins. -/
theorem C6_amended_witness :
    (extract_code (rowC6G "12345" "67890" "CDM")
      { code_extraction :=
        ceC6G ["CPT", "HCPCS", "MS-DRG", "APR-DRG", "NDC", "CDM", "Local"] true }).1 =
      "12345" :=
  C6_amended.2 ["CPT", "HCPCS", "MS-DRG", "APR-DRG", "NDC", "CDM", "Local"] true
    "12345" "67890" "CDM" (by decide) (by decide) (by decide) (by decide)
    (by decide) (by decide) (by decide) (by decide)

/-- C7 counterexample: in the wide path no dedup set exists; a wide row in
which the two sibling columns `price|Aetna` and `standard_charge|Aetna`
denote the same conceptual price creates two identical offers — the same
`(item, payer, plan, amount, notes)` tuple twice, contradicting the claimed
in-run deduplication for every extraction style. -/
theorem C7_counterexample :
    (runWide dfC7 cfgC9 "H1").items =
      [(⟨"12345", "CPT", "X", "H1", "UNKNOWN"⟩,
        [⟨"Aetna", none, some ⟨100, 0⟩, none⟩, ⟨"Aetna", none, some ⟨100, 0⟩, none⟩])] ∧
    (runWide dfC7 cfgC9 "H1").pricesCreated = 2 ∧
    ¬ (offerKeys (runWide dfC7 cfgC9 "H1").items).Nodup := by decide

/-- C7 amended: on the tall (column, header and payer-object styles alike)
and nested-JSON paths, in-run deduplication by `(item, payer, plan, amount,
notes)` holds: for every dataframe, JSON document, descriptor and hospital,
the created offers' dedup keys are pairwise distinct and coincide with the
run's `price_dedupe` set.  The wide path consults no dedup set and can
create duplicate offers. -/
theorem C7_amended (df : DF) (data : JVal) (cfg : Config) (hid : String) :
    (offerKeys (runTall df cfg hid).items).Nodup ∧
    (∀ k : DKey, k ∈ offerKeys (runTall df cfg hid).items ↔
      k ∈ (runTall df cfg hid).dedupe) ∧
    (offerKeys (runJson data cfg hid).1.items).Nodup ∧
    (∀ k : DKey, k ∈ offerKeys (runJson data cfg hid).1.items ↔
      k ∈ (runJson data cfg hid).1.dedupe) :=
  ⟨(StInv_runTall df cfg hid).2.2.2, (StInv_runTall df cfg hid).2.2.1,
   (StInv_runJson data cfg hid).2.2.2, (StInv_runJson data cfg hid).2.2.1⟩

/-- C8: with the default skip rules (placeholder threshold 99999999), any
cell whose cleaned text parses as a number maps to `(null, null)` when the
value is at or above the threshold and to `(value, null)` below it; in
particular `parse_price "99999999" = (null, null)` and
`parse_price "99999998" = (99999998.0, null)`. -/
theorem C8_placeholder_threshold (s : String) (v : PyFloat)
    (h : pyFloatQ (cleanChars (pyStrip s)) = some v) :
    parse_price (some (.str s)) {} =
      (if (99999999 : ℚ) ≤ v.toRat then (none, none) else (some v, none)) ∧
    parse_price (some (.str "99999999")) {} = (none, none) ∧
    parse_price (some (.str "99999998")) {} = (some ⟨99999998, 0⟩, none) := by
  refine ⟨?_, by decide, by decide⟩
  have h9 : (⟨99999999, 0⟩ : PyFloat).toRat = (99999999 : ℚ) := by
    norm_num [PyFloat.toRat]
  have hiff := pfLe_toRat ⟨99999999, 0⟩ v
  rw [h9] at hiff
  rw [parse_price_of_parse h]
  by_cases hc : (99999999 : ℚ) ≤ v.toRat
  · rw [if_pos (hiff.mpr hc), if_pos hc]
  · rw [if_neg (fun hb => hc (hiff.mp hb)), if_neg hc]

/-- C8 witness: the threshold characterization applied at the parseable
input `"99999999"`. -/
theorem C8_placeholder_threshold_witness :
    pyFloatQ (cleanChars (pyStrip "99999999")) = some (⟨99999999, 0⟩ : PyFloat) ∧
    (parse_price (some (.str "99999999")) {} =
      (if (99999999 : ℚ) ≤ (⟨99999999, 0⟩ : PyFloat).toRat then (none, none)
        else (some (⟨99999999, 0⟩ : PyFloat), none)) ∧
     parse_price (some (.str "99999999")) {} = (none, none) ∧
     parse_price (some (.str "99999998")) {} = (some ⟨99999998, 0⟩, none)) :=
  ⟨by decide, C8_placeholder_threshold "99999999" ⟨99999999, 0⟩ (by decide)⟩

/-- C9: a header-style wide ingestion of a row with a resolvable code and a
column literally named `standard_charge|Cigna|Open Access|negotiated_dollar`
holding `200` yields exactly one offer, with payer `"Cigna"`, plan
`"Open Access"` and amount 200. -/
theorem C9_wide_header_offer :
    (runWide dfC9 cfgC9 "H1").items =
      [(⟨"12345", "CPT", "MRI", "H1", "UNKNOWN"⟩,
        [⟨"Cigna", some "Open Access", some ⟨200, 0⟩, none⟩])] ∧
    (runWide dfC9 cfgC9 "H1").itemsCreated = 1 ∧
    (runWide dfC9 cfgC9 "H1").pricesCreated = 1 := by decide

/-- C10: ingestion is not atomic for the hospital being ingested: once the
data file is located, the hospital's stored items are deleted before the
file is parsed, so a load / parse failure leaves the store with zero items
for that hospital (the prior state is not restored); when no data file is
found at all, the store is untouched. -/
theorem C10_delete_before_parse (store : Store) (e : String) (cfg : Config) (hid : String) :
    ingestHospital store (some (.error e)) cfg hid =
      (deleteHospitalData store hid, false, 0, 0) ∧
    (∀ p ∈ (ingestHospital store (some (.error e)) cfg hid).1,
      p.1.hospital_id ≠ hid) ∧
    ingestHospital store none cfg hid = (store, false, 0, 0) := by
  refine ⟨rfl, ?_, rfl⟩
  intro p hp
  have hp2 := (List.mem_filter.mp hp).2
  simpa using hp2

end HPA
